import Mathlib

/-!
# Verification of the sorted-set engine (`zset_family.cc`)

A shallow embedding of the sorted-set ("Z" command family) engine and proofs
about it.  Sorted sets are modelled as lists of `(member, score)` pairs in
iteration order; scores are modelled by `Dbl`, an exact extended-rational
model of the IEEE-754 doubles the code manipulates (`±inf` and `NaN` are
explicit constructors; finite values are rationals, which is faithful for
every property proved here since none depends on rounding).

Functions named after the C++ source (`zset_family.cc`) are translated from
it; helpers of the vendored redis layer (`zsetAdd`, `zslFirstInRange`, ...)
that are not part of the given source are modelled from the specification
and carry a `Modelled from the spec:` doc comment.
-/

namespace ZsetVerify

/-- Model of an IEEE-754 double as used by the engine: `NaN`, the two
infinities, and exact finite values (rationals; the code never relies on
rounding in the properties below). -/
inductive Dbl where
  | nan : Dbl
  | ninf : Dbl
  | pinf : Dbl
  | fin : ℚ → Dbl
deriving DecidableEq, Repr

namespace Dbl

/-- IEEE addition on `Dbl`: `+inf + -inf = NaN`, `NaN` absorbs. -/
def add : Dbl → Dbl → Dbl
  | nan, _ => nan
  | _, nan => nan
  | pinf, ninf => nan
  | ninf, pinf => nan
  | pinf, _ => pinf
  | _, pinf => pinf
  | ninf, _ => ninf
  | _, ninf => ninf
  | fin a, fin b => fin (a + b)

/-- IEEE multiplication on `Dbl`: `0 × ±inf = NaN`, `NaN` absorbs. -/
def mul : Dbl → Dbl → Dbl
  | nan, _ => nan
  | _, nan => nan
  | pinf, pinf => pinf
  | pinf, ninf => ninf
  | ninf, pinf => ninf
  | ninf, ninf => pinf
  | pinf, fin b => if 0 < b then pinf else if b < 0 then ninf else nan
  | fin a, pinf => if 0 < a then pinf else if a < 0 then ninf else nan
  | ninf, fin b => if 0 < b then ninf else if b < 0 then pinf else nan
  | fin a, ninf => if 0 < a then ninf else if a < 0 then pinf else nan
  | fin a, fin b => fin (a * b)

/-- `isnan`. -/
def isNan : Dbl → Bool
  | nan => true
  | _ => false

/-- IEEE `<`: every comparison involving `NaN` is false. -/
def slt : Dbl → Dbl → Bool
  | nan, _ => false
  | _, nan => false
  | ninf, ninf => false
  | ninf, _ => true
  | _, ninf => false
  | pinf, _ => false
  | fin _, pinf => true
  | fin a, fin b => decide (a < b)

/-- IEEE `<=`: every comparison involving `NaN` is false. -/
def sle : Dbl → Dbl → Bool
  | nan, _ => false
  | _, nan => false
  | ninf, _ => true
  | _, ninf => false
  | _, pinf => true
  | pinf, fin _ => false
  | fin a, fin b => decide (a ≤ b)

/-- IEEE `==` (`±0` coincide in `ℚ`; `NaN` equals nothing). -/
def seq : Dbl → Dbl → Bool
  | nan, _ => false
  | _, nan => false
  | ninf, ninf => true
  | pinf, pinf => true
  | fin a, fin b => decide (a = b)
  | _, _ => false

end Dbl

/-! ## The range visitor: index (rank) intervals

`IntervalVisitor::operator()(const IndexInterval&)`, lines 192-219, and
`IntervalVisitor::ActionRange(unsigned start, unsigned end)`, lines 248-303.
A sorted set is a list of elements in iteration order; both encodings
traverse the same logical sequence (forward, or tail-first when
`params.reverse` is set). -/

/-- The collection loop of `ActionRange(unsigned, unsigned)`: after seeking
to the start position, both the listpack branch (`lpSeek` + `zzlNext`/
`zzlPrev`) and the skiplist branch (`zslGetElementByRank` + level-0 links)
emit `rangelen` consecutive elements of the iteration sequence. -/
def collectN {α : Type} : List α → Nat → List α
  | _, 0 => []
  | [], _ + 1 => []
  | e :: rest, n + 1 => e :: collectN rest n

/-- `IntervalVisitor::ActionRange(unsigned start, unsigned end)` (rank
action): seek to position `start` of the iteration sequence (`l` forward,
`l.reverse` when `reverse`), then collect `(end - start) + 1` elements. -/
def ActionRangeRank {α : Type} (l : List α) (reverse : Bool) (start endp : Nat) :
    List α :=
  let seq := if reverse then l.reverse else l
  collectN (seq.drop start) (endp - start + 1)

/-- `IntervalVisitor::operator()(const IndexInterval&)`: normalize the signed
pair `(ii.first, ii.second)` against the length, return empty when the range
is empty, otherwise run the rank `Range` action. -/
def visitIndexInterval {α : Type} (l : List α) (reverse : Bool)
    (first second : Int) : List α :=
  let llen : Int := l.length
  let start0 : Int := if first < 0 then first + llen else first
  let end0 : Int := if second < 0 then second + llen else second
  let start1 : Int := if start0 < 0 then 0 else start0
  if start1 > end0 ∨ start1 ≥ llen then []
  else
    let end1 : Int := if end0 ≥ llen then llen - 1 else end0
    ActionRangeRank l reverse start1.toNat end1.toNat

/-! ## The range visitor: score intervals

`GetZrangeSpec` (lines 40-52), `IntervalVisitor::operator()(const
ScoreInterval&)` (lines 221-232), `IntervalVisitor::ExtractListPack(const
zrangespec&)` (lines 365-407) and `IntervalVisitor::ExtractSkipList(const
zrangespec&)` (lines 409-439). -/

/-- A sorted-set element: `(member bytes, score)`. -/
abbrev ZEntry := String × Dbl

/-- `ZSetFamily::Bound`: a score bound value plus its open/closed flag
(header not in the given source; modelled from the spec: "Score bound: a
value plus an open/closed flag"). -/
structure Bound where
  val : Dbl
  is_open : Bool := false
deriving DecidableEq, Repr

/-- redis `zrangespec` (vendored header). -/
structure Zrangespec where
  min : Dbl
  max : Dbl
  minex : Bool
  maxex : Bool
deriving DecidableEq, Repr

/-- `ZSetFamily::RangeParams` (header not in the given source; modelled from
the spec: params `{reverse, with_scores, offset, limit}`, offset defaulting
to 0 and limit to the `UINT32_MAX` "no limit" sentinel). -/
structure RangeParams where
  offset : Nat := 0
  limit : Nat := 4294967295
  reverse : Bool := false
  with_scores : Bool := false
deriving Repr

/-- `GetZrangeSpec` (lines 40-52): swap `(first, second)` when `reverse`,
then build the `zrangespec` from the swapped interval. -/
def GetZrangeSpec (reverse : Bool) (si : Bound × Bound) : Zrangespec :=
  let interval := if reverse then (si.2, si.1) else si
  { min := interval.1.val
    max := interval.2.val
    minex := interval.1.is_open
    maxex := interval.2.is_open }

/-- Modelled from the spec: redis `zslValueGteMin` — does `value` satisfy
the lower bound of the range (strictly when the bound is open)? -/
def zslValueGteMin (value : Dbl) (spec : Zrangespec) : Bool :=
  if spec.minex then Dbl.slt spec.min value else Dbl.sle spec.min value

/-- Modelled from the spec: redis `zslValueLteMax` — does `value` satisfy
the upper bound of the range (strictly when the bound is open)? -/
def zslValueLteMax (value : Dbl) (spec : Zrangespec) : Bool :=
  if spec.maxex then Dbl.slt value spec.max else Dbl.sle value spec.max

/-- `IntervalVisitor::IsUnder` (lines 178-180): the continuation test of the
emission loop — the *other* bound for the direction of travel. -/
def IsUnder (reverse : Bool) (score : Dbl) (spec : Zrangespec) : Bool :=
  if reverse then zslValueGteMin score spec else zslValueLteMax score spec

/-- Modelled from the spec: redis `zzlFirstInRange` / `zslFirstInRange`
(and, applied to the reversed sequence, the `Last` variants) — "start at
the first (or last, if reverse) element whose score satisfies the bound":
the suffix of the traversal sequence beginning at that element. -/
def suffixFromFirstSat (seq : List ZEntry) (entry : ZEntry → Bool) :
    List ZEntry :=
  seq.dropWhile (fun e => !entry e)

/-- The emission loop shared by `ExtractListPack` and `ExtractSkipList`
(score variant): `while (ptr && limit--) { if (!IsUnder(score, range))
break; emit; advance; }`. -/
def emitLoop (range : Zrangespec) (reverse : Bool) :
    List ZEntry → Nat → List ZEntry
  | _, 0 => []
  | [], _ + 1 => []
  | e :: rest, n + 1 =>
    if !IsUnder reverse e.2 range then []
    else e :: emitLoop range reverse rest n

/-- The entry-bound test used to find the starting element: the min bound
forward, the max bound in reverse. -/
def entryBound (reverse : Bool) (range : Zrangespec) (e : ZEntry) : Bool :=
  if reverse then zslValueLteMax e.2 range else zslValueGteMin e.2 range

/-- `IntervalVisitor::ExtractListPack(const zrangespec&)` (lines 365-407):
seek the first (or last) in-range entry, unconditionally skip `offset`
entries, then run the emission loop bounded by `limit`. -/
def ExtractListPack (l : List ZEntry) (range : Zrangespec)
    (params : RangeParams) : List ZEntry :=
  let seq := if params.reverse then l.reverse else l
  let start := suffixFromFirstSat seq (entryBound params.reverse range)
  emitLoop range params.reverse (start.drop params.offset) params.limit

/-- `IntervalVisitor::ExtractSkipList(const zrangespec&)` (lines 409-439):
identical traversal over the skiplist encoding. -/
def ExtractSkipList (l : List ZEntry) (range : Zrangespec)
    (params : RangeParams) : List ZEntry :=
  let seq := if params.reverse then l.reverse else l
  let start := suffixFromFirstSat seq (entryBound params.reverse range)
  emitLoop range params.reverse (start.drop params.offset) params.limit

/-- Which live encoding the set object carries. -/
inductive Encoding where
  | listpack : Encoding
  | skiplist : Encoding
deriving DecidableEq, Repr

/-- `IntervalVisitor::operator()(const ScoreInterval&)` (lines 221-232) with
the `Range` action (`ActionRange(const zrangespec&)`, lines 305-312):
convert the interval via `GetZrangeSpec`, then extract over the live
encoding. -/
def visitScoreInterval (enc : Encoding) (l : List ZEntry) (si : Bound × Bound)
    (params : RangeParams) : List ZEntry :=
  let range := GetZrangeSpec params.reverse si
  match enc with
  | .listpack => ExtractListPack l range params
  | .skiplist => ExtractSkipList l range params

/-- Claim side (C1), following the specification's words: normalize negative
`start`/`end` by adding the length, clamp `start` to `0` and `end` to
`length - 1`; empty whenever `start > end` or `start ≥ length` after
normalization; otherwise exactly the elements at positions `start..end`
inclusive of the iteration sequence. -/
def indexRangeSpec {α : Type} (l : List α) (reverse : Bool)
    (first second : Int) : List α :=
  let L : Int := l.length
  let s : Int := max 0 (if first < 0 then first + L else first)
  let e : Int := min (L - 1) (if second < 0 then second + L else second)
  let seq := if reverse then l.reverse else l
  if s > e ∨ s ≥ L then []
  else
    ((List.range l.length).filter
        (fun i : Nat => decide (s ≤ (i : Int)) && decide ((i : Int) ≤ e))).filterMap
      (fun i : Nat => seq[i]?)

/-! ## The range visitor: lex intervals

`GetLexStr` (lines 54-62), `GetLexRange` (lines 64-79). -/

/-- `ZSetFamily::LexBound` bound kinds (header not in the given source;
modelled from the spec: "Lex bound: one of `MINUS_INF`, `PLUS_INF`, or
(`OPEN`|`CLOSED`, bytes)"). -/
inductive LexBoundType where
  | PLUS_INF : LexBoundType
  | MINUS_INF : LexBoundType
  | OPEN : LexBoundType
  | CLOSED : LexBoundType
deriving DecidableEq, Repr

/-- `ZSetFamily::LexBound`. -/
structure LexBound where
  val : String := ""
  type : LexBoundType
deriving DecidableEq, Repr

/-- The `sds` endpoint produced by `GetLexStr`: the shared `cminstring` /
`cmaxstring` sentinels (smaller/greater than every byte string in the redis
lex comparator) or plain member bytes. -/
inductive LexEnd where
  | minStr : LexEnd
  | maxStr : LexEnd
  | str : String → LexEnd
deriving DecidableEq, Repr

/-- `GetLexStr` (lines 54-62). -/
def GetLexStr (bound : LexBound) : LexEnd :=
  if bound.type = LexBoundType.MINUS_INF then LexEnd.minStr
  else if bound.type = LexBoundType.PLUS_INF then LexEnd.maxStr
  else LexEnd.str bound.val

/-- redis `zlexrangespec` (vendored header). -/
structure Zlexrangespec where
  min : LexEnd
  max : LexEnd
  minex : Bool
  maxex : Bool
deriving DecidableEq, Repr

/-- `GetLexRange` (lines 64-79): swap `(first, second)` when `reverse`, then
build the `zlexrangespec`.  Note line 76: `range.maxex` is computed from
`li.second` — the *unswapped* interval — while every other field uses the
swapped `interval`. -/
def GetLexRange (reverse : Bool) (li : LexBound × LexBound) : Zlexrangespec :=
  let interval := if reverse then (li.2, li.1) else li
  { min := GetLexStr interval.1
    max := GetLexStr interval.2
    minex := interval.1.type = LexBoundType.OPEN
    maxex := li.2.type = LexBoundType.OPEN }

/-- Claim side (C8), following the specification's words: the visitor swaps
`(first, second)` completely, so the max exclusivity comes from the swapped
interval's second component just like the max bytes do — an open/closed
flag always travels with its own endpoint. -/
def GetLexRangeSpec (reverse : Bool) (li : LexBound × LexBound) :
    Zlexrangespec :=
  let interval := if reverse then (li.2, li.1) else li
  { min := GetLexStr interval.1
    max := GetLexStr interval.2
    minex := interval.1.type = LexBoundType.OPEN
    maxex := interval.2.type = LexBoundType.OPEN }

/-! ## Command argument handling: `ZRANGEBYLEX` `LIMIT` (C7) and the
`ZRANGE`/`ZREVRANGE` option loop (C10) -/

/-- Modelled from the spec: the `ToUpper` argument normalization applied to
option tokens (ASCII uppercase). -/
def upperChar (c : Char) : Char :=
  if 97 ≤ c.toNat ∧ c.toNat ≤ 122 then Char.ofNat (c.toNat - 32) else c

/-- ASCII-uppercase a token, as `ToUpper(&args[i])` does. -/
def upperStr (s : String) : String := ⟨s.data.map upperChar⟩

/-- Modelled from the spec: `absl::SimpleAtoi<uint32_t>` on a decimal token —
accepts only all-digit strings whose value fits in 32 bits. -/
def simpleAtoiU32 (s : String) : Option Nat :=
  if s.isEmpty then none
  else if s.toList.all Char.isDigit then
    let v := s.toList.foldl (fun acc c => acc * 10 + (c.toNat - 48)) 0
    if v < 4294967296 then some v else none
  else none

/-- Modelled from the spec: `facade::kSyntaxErr`, the generic `SYNTAX` error
line. -/
def kSyntaxErr : String := "syntax error"

/-- Modelled from the spec: `facade::kInvalidIntErr`, the integer-parse
error line. -/
def kInvalidIntErr : String := "value is not an integer or out of range"

/-- Result of the `LIMIT`-clause handling of `ZRangeByLex`. -/
inductive LimitParse where
  | err : String → LimitParse
  | ok : Nat → Nat → LimitParse
deriving DecidableEq, Repr

/-- `ZSetFamily::ZRangeByLex` (lines 1208-1227), the argument handling up to
the `LIMIT` clause: `offset` starts at 0 and `count` at `kuint32max`; with
more than 4 args the form must be exactly `LIMIT os cs`; the code then runs
`SimpleAtoi(os, &count) || SimpleAtoi(cs, &count)` — both tokens are parsed
into `count` and `offset` is never written. -/
def zrangeByLexLimit (args : List String) : LimitParse :=
  let offset : Nat := 0
  let count : Nat := 4294967295
  if args.length > 4 then
    if args.length ≠ 7 then LimitParse.err kSyntaxErr
    else if upperStr ((args.get? 4).getD "") ≠ "LIMIT" then LimitParse.err kSyntaxErr
    else
      match simpleAtoiU32 ((args.get? 5).getD "") with
      | none => LimitParse.err kInvalidIntErr
      | some _ =>
        match simpleAtoiU32 ((args.get? 6).getD "") with
        | none => LimitParse.err kInvalidIntErr
        | some c2 => LimitParse.ok offset c2
  else LimitParse.ok offset count

/-- Claim side (C7), following the specification's words: parse the two
`LIMIT` tokens as two separate integers, the first into the range offset and
the second into the limit, rejecting malformed forms with an integer-parse
error. -/
def zrangeByLexLimitSpec (args : List String) : LimitParse :=
  let count : Nat := 4294967295
  if args.length > 4 then
    if args.length ≠ 7 then LimitParse.err kSyntaxErr
    else if upperStr ((args.get? 4).getD "") ≠ "LIMIT" then LimitParse.err kSyntaxErr
    else
      match simpleAtoiU32 ((args.get? 5).getD "") with
      | none => LimitParse.err kInvalidIntErr
      | some o =>
        match simpleAtoiU32 ((args.get? 6).getD "") with
        | none => LimitParse.err kInvalidIntErr
        | some c2 => LimitParse.ok o c2
  else LimitParse.ok 0 count

/-- `ZSetFamily::ZRangeGeneric` (lines 1495-1515), the option-token loop:
`BYSCORE` is recognized only when `reverse` is false; `WITHSCORES` is always
recognized; any other (or unrecognized-in-context) token produces
`"unsupported option <TOKEN>"`.  Returns `(parse_score, with_scores)`;
`parse_score = true` selects the score-interval path
(`ZRangeByScoreInternal`). -/
def zrangeOptsLoop (reverse : Bool) :
    List String → Bool → Bool → Except String (Bool × Bool)
  | [], ps, ws => Except.ok (ps, ws)
  | t :: rest, ps, ws =>
    let cur := upperStr t
    if reverse = false ∧ cur = "BYSCORE" then zrangeOptsLoop reverse rest true ws
    else if cur = "WITHSCORES" then zrangeOptsLoop reverse rest ps true
    else Except.error ("unsupported option " ++ cur)

/-- The option tokens of a `ZRANGE`-family invocation start at argument
index 4 (`for (size_t i = 4; i < args.size(); ++i)`). -/
def ZRangeGenericOptions (args : List String) (reverse : Bool) :
    Except String (Bool × Bool) :=
  zrangeOptsLoop reverse (args.drop 4) false false

/-- `ZSetFamily::ZRange` calls `ZRangeGeneric(args, false, cntx)` (lines
1176-1178). -/
def ZRangeOptions (args : List String) : Except String (Bool × Bool) :=
  ZRangeGenericOptions args false

/-- `ZSetFamily::ZRevRange` calls `ZRangeGeneric(args, true, cntx)` (lines
1184-1186). -/
def ZRevRangeOptions (args : List String) : Except String (Bool × Bool) :=
  ZRangeGenericOptions args true

/-! ## ZADD: `zsetAdd` (vendored, spec-modelled), `OpAdd` (lines 774-844),
flag parsing and reply dispatch (`ZSetFamily::ZAdd`, lines 904-999) -/

/-- `ZParams` (lines 81-85), with the `ZADD_IN_*` flag mask split into
fields. -/
structure ZParams where
  nx : Bool := false
  xx : Bool := false
  gt : Bool := false
  lt : Bool := false
  incr : Bool := false
  ch : Bool := false
  override : Bool := false
deriving DecidableEq, Repr

/-- The `(score, member)` iteration order of a sorted set: by score, ties by
member bytes. -/
def entryLt (a b : ZEntry) : Bool :=
  Dbl.slt a.2 b.2 || (Dbl.seq a.2 b.2 && decide (a.1 < b.1))

/-- Insertion keeping the `(score, member)` iteration order. -/
def zslInsertSorted (l : List ZEntry) (e : ZEntry) : List ZEntry :=
  match l with
  | [] => [e]
  | x :: rest =>
    if entryLt e x then e :: x :: rest else x :: zslInsertSorted rest e

/-- Remove one member from the element list (hash + skiplist removal). -/
def zsetDelMember (l : List ZEntry) (m : String) : List ZEntry :=
  l.filter fun e => !(e.1 == m)

/-- Outcome of one `zsetAdd` call: `retval` is the C `int` return (false only
on a NaN outcome), the `out_flags` bits, whether `*newscore` was written,
and the updated element list. -/
structure ZaddOut where
  retval : Bool
  added : Bool := false
  updated : Bool := false
  nop : Bool := false
  nan : Bool := false
  wrote : Bool := false
  newScore : Dbl := Dbl.fin 0
  list : List ZEntry
deriving Repr

/-- Modelled from the spec: redis `zsetAdd` (vendored `zset.c`, not under
`src/`), per §4.3 of the specification — `NX` adds only, `XX` updates only,
`GT`/`LT` gate updates on the comparison with the existing score, `INCR`
adds the supplied score to the existing one, and "NaN is never permitted as
a stored score nor as the result of any update" (a NaN outcome leaves the
set untouched and fails with the NaN flag). -/
def zsetAdd (l : List ZEntry) (score : Dbl) (ele : String) (zp : ZParams) :
    ZaddOut :=
  if score.isNan then { retval := false, nan := true, list := l }
  else
    match List.lookup ele l with
    | some cur =>
      if zp.nx then { retval := true, nop := true, list := l }
      else
        let s1 := if zp.incr then Dbl.add cur score else score
        if zp.incr ∧ s1.isNan then { retval := false, nan := true, list := l }
        else if (zp.gt ∧ Dbl.sle s1 cur = true) ∨
            (zp.lt ∧ Dbl.sle cur s1 = true) then
          { retval := true, nop := true, list := l }
        else if Dbl.seq s1 cur then
          { retval := true, wrote := true, newScore := s1, list := l }
        else
          { retval := true, updated := true, wrote := true, newScore := s1
            list := zslInsertSorted (zsetDelMember l ele) (ele, s1) }
    | none =>
      if zp.xx then { retval := true, nop := true, list := l }
      else
        { retval := true, added := true, wrote := true, newScore := score
          list := zslInsertSorted l (ele, score) }

/-- The running state of the member loop of `OpAdd` (lines 803-828). -/
structure OpAddState where
  zobj : List ZEntry
  added : Nat := 0
  updated : Nat := 0
  processed : Nat := 0
  new_score : Dbl := Dbl.fin 0
  is_nan : Bool := false
  skipped : Bool := false
deriving Repr

/-- The member loop of `OpAdd` (lines 803-828): run `zsetAdd` per pair; with
`INCR`, a zero return means NaN (`aresult.is_nan = true; break`) and a `NOP`
out-flag records `OpStatus::SKIPPED`; the `ADDED`/`UPDATED`/non-`NOP` flags
are tallied. -/
def OpAddLoop (zp : ZParams) :
    List (Dbl × String) → OpAddState → OpAddState
  | [], st => st
  | (sc, mem) :: rest, st =>
    let out := zsetAdd st.zobj sc mem zp
    if zp.incr ∧ out.retval = false then { st with is_nan := true }
    else
      OpAddLoop zp rest
        { st with
          zobj := out.list
          skipped := st.skipped ∨ (zp.incr ∧ out.nop)
          added := st.added + (if out.added then 1 else 0)
          updated := st.updated + (if out.updated then 1 else 0)
          processed := st.processed + (if out.nop then 0 else 1)
          new_score := if out.wrote then out.newScore else st.new_score }

/-- `OpStatus` values reachable from `OpAdd` on an existing sorted set. -/
inductive OpStatus where
  | OK : OpStatus
  | SKIPPED : OpStatus
  | KEY_NOTFOUND : OpStatus
  | WRONG_TYPE : OpStatus
  | OUT_OF_MEMORY : OpStatus
deriving DecidableEq, Repr

/-- `AddResult` (lines 767-772). -/
structure AddResult where
  new_score : Dbl := Dbl.fin 0
  num_updated : Nat := 0
  is_nan : Bool := false
deriving Repr

/-- `OpAdd` (lines 774-844) on an already-located sorted-set object: run the
member loop, then assemble the `AddResult` (`new_score` under `INCR`,
`added` or `added+updated` per `CH` otherwise); a recorded `SKIPPED` status
takes precedence over the value. -/
def OpAdd (zobj : List ZEntry) (zp : ZParams) (members : List (Dbl × String)) :
    OpStatus × AddResult × List ZEntry :=
  let st := OpAddLoop zp members { zobj := zobj }
  let ares : AddResult :=
    if zp.incr then { new_score := st.new_score, is_nan := st.is_nan }
    else { num_updated := if zp.ch then st.added + st.updated else st.added
           is_nan := st.is_nan }
  (if st.skipped then OpStatus.SKIPPED else OpStatus.OK, ares, st.zobj)

/-- A wire reply. -/
inductive Reply where
  | err : String → Reply
  | nil : Reply
  | long : Int → Reply
  | dbl : Dbl → Reply
deriving DecidableEq, Repr

/-- `kScoreNaN` (line 34). -/
def kScoreNaN : String := "resulting score is not a number (NaN)"

/-- `kNxXxErr` (line 33). -/
def kNxXxErr : String := "XX and NX options at the same time are not compatible"

/-- The `INCR` multi-pair error (line 937). -/
def kIncrPairErr : String := "INCR option supports a single increment-element pair"

/-- The `GT`/`LT`/`NX` incompatibility error (line 950). -/
def kGtLtNxErr : String := "GT, LT, and/or NX options at the same time are not compatible"

/-- The reply dispatch of `ZSetFamily::ZAdd` on the `OpAdd` outcome (lines
977-998). -/
def zaddReplyOf (zp : ZParams) (status : OpStatus) (ares : AddResult) : Reply :=
  if status = OpStatus.WRONG_TYPE ∨ status = OpStatus.OUT_OF_MEMORY then
    Reply.err "type or memory error"
  else if status = OpStatus.KEY_NOTFOUND then
    if zp.incr then Reply.nil else Reply.long 0
  else if status = OpStatus.SKIPPED then Reply.nil
  else if ares.is_nan then Reply.err kScoreNaN
  else if zp.incr then Reply.dbl ares.new_score
  else Reply.long ares.num_updated

/-- Is the (uppercased) token one of the six ZADD option keywords (lines
914-926)? -/
def isZaddFlagTok (t : String) : Bool :=
  let u := upperStr t
  u = "XX" || u = "NX" || u = "GT" || u = "LT" || u = "CH" || u = "INCR"

/-- One step of the ZADD flag loop: apply a recognized token to the
`ZParams`. -/
def zaddApplyFlag (zp : ZParams) (t : String) : ZParams :=
  let cur := upperStr t
  if cur = "XX" then { zp with xx := true }
  else if cur = "NX" then { zp with nx := true }
  else if cur = "GT" then { zp with gt := true }
  else if cur = "LT" then { zp with lt := true }
  else if cur = "CH" then { zp with ch := true }
  else if cur = "INCR" then { zp with incr := true }
  else zp

/-- The flag set accumulated over a token list. -/
def zaddApplyFlags (zp : ZParams) (flags : List String) : ZParams :=
  flags.foldl zaddApplyFlag zp

/-- The ZADD flag loop (lines 908-929): `for (i = 2; i < args.size() - 1;
++i)` — consume recognized option tokens while at least two tokens remain
(the current one is never the last argument), stopping at the first
unrecognized token; the source's six-way `if`/`else if` chain is factored
through `isZaddFlagTok` (the same six uppercased keywords) and
`zaddApplyFlag` (the corresponding flag updates).  Returns the accumulated
flags and the unconsumed remainder of the argument list. -/
def zaddParseFlagsList (zp : ZParams) : List String → ZParams × List String
  | [] => (zp, [])
  | [t] => (zp, [t])
  | t :: u :: rest =>
    if isZaddFlagTok t then zaddParseFlagsList (zaddApplyFlag zp t) (u :: rest)
    else (zp, t :: u :: rest)

/-- The early error checks of `ZSetFamily::ZAdd` (lines 931-952), run before
the set is touched: odd trailing-token count → syntax error; `INCR` with
more than one pair; `NX`+`XX`; `NX` with `GT`/`LT`, or `GT`+`LT`.
Returns the error reply, or `none` when parsing proceeds to the pairs. -/
def zaddEarlyError (args : List String) : Option String :=
  let parsed := zaddParseFlagsList {} (args.drop 2)
  let zp := parsed.1
  let rest := parsed.2
  if rest.length % 2 ≠ 0 then some kSyntaxErr
  else if zp.incr ∧ rest.length > 2 then some kIncrPairErr
  else if zp.nx ∧ zp.xx then some kNxXxErr
  else if (zp.nx ∧ (zp.gt ∨ zp.lt)) ∨ (zp.gt ∧ zp.lt) then some kGtLtNxErr
  else none

/-! ## The key space and the removal operations

`ZSetFamily::OpRem` (lines 1646-1669) and `ZSetFamily::OpRemRange` (lines
1701-1724). -/

/-- The shard-local key space restricted to sorted sets: an association
list from key to element list.  (Other value types never arise in the
claims proved here.) -/
abbrev DB := List (String × List ZEntry)

/-- `DbSlice::Find`. -/
def dbFind (db : DB) (k : String) : Option (List ZEntry) := List.lookup k db

/-- In-place mutation of the found entry (iterator write-back /
`SyncRObj`). -/
def dbSet (db : DB) (k : String) (v : List ZEntry) : DB :=
  db.map fun e => if e.1 = k then (k, v) else e

/-- `DbSlice::Del`. -/
def dbDel (db : DB) (k : String) : DB := db.filter fun e => !(e.1 == k)

/-- `DbSlice::AddOrFind` followed by object replacement (`ImportRObj`):
update in place when present, append otherwise. -/
def dbUpsert (db : DB) (k : String) (v : List ZEntry) : DB :=
  if (dbFind db k).isSome then dbSet db k v else db ++ [(k, v)]

/-- Modelled from the spec: redis `zslLexValueGteMin` — the `cminstring`
sentinel is below and `cmaxstring` above every byte string; otherwise plain
lexicographic comparison on the member bytes, strict when the bound is
open. -/
def zslLexValueGteMin (ele : String) (spec : Zlexrangespec) : Bool :=
  match spec.min with
  | LexEnd.minStr => true
  | LexEnd.maxStr => false
  | LexEnd.str s => if spec.minex then decide (s < ele) else decide (s ≤ ele)

/-- Modelled from the spec: redis `zslLexValueLteMax`. -/
def zslLexValueLteMax (ele : String) (spec : Zlexrangespec) : Bool :=
  match spec.max with
  | LexEnd.maxStr => true
  | LexEnd.minStr => false
  | LexEnd.str s => if spec.maxex then decide (ele < s) else decide (ele ≤ s)

/-- `IntervalVisitor::ActionRem(unsigned, unsigned)` (lines 323-335): delete
the elements at forward positions `start..end`; the removed count is the
range length. -/
def ActionRemRank (l : List ZEntry) (start endp : Nat) : Nat × List ZEntry :=
  (endp - start + 1, l.take start ++ l.drop (endp + 1))

/-- `IntervalVisitor::operator()(const IndexInterval&)` with the `Remove`
action: the same normalization as for the range action (lines 192-218),
then `ActionRem`. -/
def visitIndexIntervalRemove (l : List ZEntry) (first second : Int) :
    Nat × List ZEntry :=
  let llen : Int := l.length
  let start0 : Int := if first < 0 then first + llen else first
  let end0 : Int := if second < 0 then second + llen else second
  let start1 : Int := if start0 < 0 then 0 else start0
  if start1 > end0 ∨ start1 ≥ llen then (0, l)
  else
    let end1 : Int := if end0 ≥ llen then llen - 1 else end0
    ActionRemRank l start1.toNat end1.toNat

/-- `IntervalVisitor::ActionRem(const zrangespec&)` (lines 337-349), via
`zzlDeleteRangeByScore` / `zslDeleteRangeByScore` (modelled from the spec:
delete every element whose score satisfies both bounds, reporting the
count). -/
def ActionRemScore (l : List ZEntry) (range : Zrangespec) : Nat × List ZEntry :=
  let keep := l.filter fun e =>
    !(zslValueGteMin e.2 range && zslValueLteMax e.2 range)
  (l.length - keep.length, keep)

/-- `IntervalVisitor::ActionRem(const zlexrangespec&)` (lines 351-363), via
`zzlDeleteRangeByLex` / `zslDeleteRangeByLex` (modelled from the spec). -/
def ActionRemLex (l : List ZEntry) (range : Zlexrangespec) :
    Nat × List ZEntry :=
  let keep := l.filter fun e =>
    !(zslLexValueGteMin e.1 range && zslLexValueLteMax e.1 range)
  (l.length - keep.length, keep)

/-- `ZSetFamily::ZRangeSpec::interval`: the variant over the three interval
kinds. -/
inductive Zinterval where
  | index : Int → Int → Zinterval
  | score : Bound × Bound → Zinterval
  | lex : LexBound × LexBound → Zinterval

/-- The `Remove` action of the visitor over any interval kind (the
`operator()` dispatch, lines 192-246, with `Action::REMOVE`). -/
def visitRemove (l : List ZEntry) (params : RangeParams) :
    Zinterval → Nat × List ZEntry
  | .index f s => visitIndexIntervalRemove l f s
  | .score si => ActionRemScore l (GetZrangeSpec params.reverse si)
  | .lex li => ActionRemLex l (GetLexRange params.reverse li)

/-- Modelled from the spec: redis `zsetDel` — delete one member, reporting
whether it was present. -/
def zsetDel (l : List ZEntry) (m : String) : Bool × List ZEntry :=
  if (List.lookup m l).isSome then (true, zsetDelMember l m) else (false, l)

/-- The member-deletion loop of `OpRem` (lines 1655-1659): the running
`(deleted, zobj)` pair. -/
def zsetAfterRem (zobj : List ZEntry) (members : List String) :
    Nat × List ZEntry :=
  members.foldl
    (fun acc m =>
      let r := zsetDel acc.2 m
      (acc.1 + (if r.1 then 1 else 0), r.2))
    (0, zobj)

/-- `ZSetFamily::OpRem` (lines 1646-1669): locate the set, delete the listed
members, write the object back, and when the remaining length is zero
delete the key itself from the key space. -/
def OpRem (db : DB) (key : String) (members : List String) :
    Option (Nat × DB) :=
  match dbFind db key with
  | none => none
  | some zobj =>
    let r := zsetAfterRem zobj members
    let db2 := dbSet db key r.2
    if r.2.length = 0 then some (r.1, dbDel db2 key) else some (r.1, db2)

/-- `ZSetFamily::OpRemRange` (lines 1701-1724): run the `Remove` visitor,
write the object back, and delete the key when the remaining length is
zero. -/
def OpRemRange (db : DB) (key : String) (params : RangeParams)
    (iv : Zinterval) : Option (Nat × DB) :=
  match dbFind db key with
  | none => none
  | some zobj =>
    let r := visitRemove zobj params iv
    let db2 := dbSet db key r.2
    if r.2.length = 0 then some (r.1, dbDel db2 key) else some (r.1, db2)

/-! ## The aggregation pipeline (ZUNIONSTORE / ZINTERSTORE)

`Aggregate` (lines 613-623), `FromObject` (594-611), `UnionScoredMap`
(626-642), `InterScoredMap` (644-665), `OpUnion` (667-711), `OpInter`
(713-762), `ZSetFamily::ZInterStore` (1086-1150) and
`ZSetFamily::ZUnionStore` (1383-1438). -/

/-- `AggType` (line 591). -/
inductive AggType where
  | SUM : AggType
  | MIN : AggType
  | MAX : AggType
deriving DecidableEq, Repr

/-- `std::max(v1, v2)`: `v1 < v2 ? v2 : v1` under IEEE `<`. -/
def stdMax (v1 v2 : Dbl) : Dbl := if Dbl.slt v1 v2 then v2 else v1

/-- `std::min(v1, v2)`: `v2 < v1 ? v2 : v1` under IEEE `<`. -/
def stdMin (v1 v2 : Dbl) : Dbl := if Dbl.slt v2 v1 then v2 else v1

/-- `Aggregate` (lines 613-623). -/
def Aggregate (v1 v2 : Dbl) : AggType → Dbl
  | AggType.SUM => Dbl.add v1 v2
  | AggType.MAX => stdMax v1 v2
  | AggType.MIN => stdMin v1 v2

/-- `ScoredMap` (line 592): the `flat_hash_map<string, double>` modelled
extensionally as an association list with unique keys. -/
abbrev ScoredMap := List (String × Dbl)

/-- `FromObject` (lines 594-611): materialize the whole set through the
range visitor (`IndexInterval(0, -1)`, `with_scores`), multiplying every
score by the weight, with **no** NaN filtering. -/
def FromObject (zobj : List ZEntry) (weight : Dbl) : ScoredMap :=
  let arr := visitIndexInterval zobj false 0 (-1)
  arr.map fun e => (e.1, Dbl.mul e.2 weight)

/-- Replace the value stored under `k` (the `it->second = ...` write). -/
def mapSetVal (m : ScoredMap) (k : String) (v : Dbl) : ScoredMap :=
  m.map fun e => if e.1 = k then (k, v) else e

/-- The emplace/aggregate loop of `UnionScoredMap`: for each element of
`iter`, emplace into `target`, aggregating on key collision
(`Aggregate(it->second, elem.second)` — target value first). -/
def unionMergeInto (agg : AggType) (target iter : ScoredMap) : ScoredMap :=
  iter.foldl
    (fun acc kv =>
      match List.lookup kv.1 acc with
      | some v0 => mapSetVal acc kv.1 (Aggregate v0 kv.2 agg)
      | none => acc ++ [kv])
    target

/-- `UnionScoredMap` (lines 626-642): iterate the smaller map into the
larger (ties iterate `src` into `dest`); the result lands in `dest`. -/
def UnionScoredMap (dest src : ScoredMap) (agg : AggType) : ScoredMap :=
  if src.length > dest.length then unionMergeInto agg src dest
  else unionMergeInto agg dest src

/-- `InterScoredMap` (lines 644-665): iterate the smaller map (ties iterate
`src`), dropping keys missing from the other map and aggregating
(`Aggregate(iter_value, target_value)` — iterated value first) on the keys
present in both; the result lands in `dest`. -/
def InterScoredMap (dest src : ScoredMap) (agg : AggType) : ScoredMap :=
  if src.length > dest.length then
    dest.filterMap fun kv =>
      (List.lookup kv.1 src).map fun w => (kv.1, Aggregate kv.2 w agg)
  else
    src.filterMap fun kv =>
      (List.lookup kv.1 dest).map fun w => (kv.1, Aggregate kv.2 w agg)

/-- The materialization loop of `OpInter` (lines 745-759): walk the
per-key iterator array; a done iterator (absent key) returns the empty map
at once; otherwise fold by `InterScoredMap`, returning as soon as the
running result is empty. -/
def interFold (agg : AggType) :
    List (Option (List ZEntry × Dbl)) → ScoredMap → ScoredMap
  | [], acc => acc
  | none :: _, _ => []
  | some zw :: rest, acc =>
    let sm := FromObject zw.1 zw.2
    let acc2 := if acc.isEmpty then sm else InterScoredMap acc sm agg
    if acc2.isEmpty then [] else interFold agg rest acc2

/-- The materialization loop of `OpUnion` (lines 698-708): skip done
iterators, fold the rest by `UnionScoredMap`. -/
def unionFold (agg : AggType) :
    List (Option (List ZEntry × Dbl)) → ScoredMap → ScoredMap
  | [], acc => acc
  | none :: rest, acc => unionFold agg rest acc
  | some zw :: rest, acc =>
    let sm := FromObject zw.1 zw.2
    let acc2 := if acc.isEmpty then sm else UnionScoredMap acc sm agg
    unionFold agg rest acc2

/-- The keys a shard sees, tagged with their index in the transaction's
argument list (`0` = destination key, `i ≥ 1` = the `i`-th input key);
`ShardArgsInShard` preserves the argument order. -/
def shardKeysOf (dest : String) (inputs : List String)
    (shardOf : String → Nat) (sid : Nat) : List (String × Nat) :=
  ((dest :: inputs).enum.map fun p => (p.2, p.1)).filter
    fun ka => shardOf ka.1 = sid

/-- `OpInter` (lines 713-762) for one shard: drop the leading key when it is
the destination; an empty remainder is `OpStatus::SKIPPED` (`none`); map
each remaining key to its iterator and weight (`weights[windex]`, `windex`
being the input ordinal) and run the materialization loop. -/
def OpInterShard (db : DB) (dest : String) (agg : AggType)
    (weights : List Dbl) (keys : List (String × Nat)) : Option ScoredMap :=
  match keys with
  | [] => none
  | k0 :: krest =>
    let rest := if k0.1 = dest then krest else k0 :: krest
    if rest.isEmpty then none
    else
      let it_arr : List (Option (List ZEntry × Dbl)) :=
        rest.map fun ka =>
          (dbFind db ka.1).map fun z => (z, weights.getD (ka.2 - 1) (Dbl.fin 1))
      some (interFold agg it_arr [])

/-- `OpUnion` (lines 667-711) for one shard: same shape; an empty remainder
returns `OpStatus::OK` with the default (empty) map. -/
def OpUnionShard (db : DB) (dest : String) (agg : AggType)
    (weights : List Dbl) (keys : List (String × Nat)) : Option ScoredMap :=
  match keys with
  | [] => none
  | k0 :: krest =>
    let rest := if k0.1 = dest then krest else k0 :: krest
    if rest.isEmpty then some []
    else
      let it_arr : List (Option (List ZEntry × Dbl)) :=
        rest.map fun ka =>
          (dbFind db ka.1).map fun z => (z, weights.getD (ka.2 - 1) (Dbl.fin 1))
      some (unionFold agg it_arr [])

/-- The global merge of `ZInterStore` (lines 1114-1128): skip `SKIPPED`
shards; swap in the first partial, then fold by `InterScoredMap`, breaking
as soon as the running result is empty. -/
def mergeInterMaps (agg : AggType) :
    List (Option ScoredMap) → ScoredMap → ScoredMap
  | [], acc => acc
  | none :: rest, acc => mergeInterMaps agg rest acc
  | some m :: rest, acc =>
    let acc2 := if acc.isEmpty then m else InterScoredMap acc m agg
    if acc2.isEmpty then [] else mergeInterMaps agg rest acc2

/-- The global merge of `ZUnionStore` (lines 1411-1417): fold every shard
map by `UnionScoredMap` into the (initially empty) result. -/
def mergeUnionMaps (agg : AggType) (maps : List (Option ScoredMap)) :
    ScoredMap :=
  maps.foldl
    (fun acc om =>
      match om with
      | none => acc
      | some m => UnionScoredMap acc m agg)
    []

/-- The write-back member loop of `OpAdd` under `override` (a freshly
created object receives each `(score, member)` pair through `zsetAdd` with
empty flags). -/
def buildZset (smvec : List (Dbl × String)) : List ZEntry :=
  smvec.foldl (fun acc sv => (zsetAdd acc sv.1 sv.2 {}).list) []

/-- The destination write of both store commands (`store_cb` + `OpAdd` with
`zparams.override`, lines 774-783 and 1137-1147): an empty member vector
deletes the destination key; otherwise the destination is replaced by the
freshly built set. -/
def storeOverride (db : DB) (dest : String) (smvec : List (Dbl × String)) :
    DB :=
  if smvec.isEmpty then dbDel db dest
  else dbUpsert db dest (buildZset smvec)

/-- The per-shard partial results of `ZInterStore` (phase 1,
`maps[shard->shard_id()] = OpInter(...)`, with `SKIPPED` as `none`). -/
def interShardMaps (db : DB) (dest : String) (inputs : List String)
    (weights : List Dbl) (agg : AggType) (numShards : Nat)
    (shardOf : String → Nat) : List (Option ScoredMap) :=
  (List.range numShards).map fun sid =>
    OpInterShard db dest agg weights (shardKeysOf dest inputs shardOf sid)

/-- The per-shard partial results of `ZUnionStore`. -/
def unionShardMaps (db : DB) (dest : String) (inputs : List String)
    (weights : List Dbl) (agg : AggType) (numShards : Nat)
    (shardOf : String → Nat) : List (Option ScoredMap) :=
  (List.range numShards).map fun sid =>
    OpUnionShard db dest agg weights (shardKeysOf dest inputs shardOf sid)

/-- `ZSetFamily::ZInterStore` (lines 1086-1150) after argument parsing: run
`OpInter` on every shard, merge, write the result to the destination shard,
and reply with the size of the merged member vector. -/
def ZInterStore (db : DB) (dest : String) (inputs : List String)
    (weights : List Dbl) (agg : AggType) (numShards : Nat)
    (shardOf : String → Nat) : Nat × DB :=
  let maps := interShardMaps db dest inputs weights agg numShards shardOf
  let result := mergeInterMaps agg maps []
  let smvec := result.map fun kv => (kv.2, kv.1)
  (smvec.length, storeOverride db dest smvec)

/-- `ZSetFamily::ZUnionStore` (lines 1383-1438) after argument parsing. -/
def ZUnionStore (db : DB) (dest : String) (inputs : List String)
    (weights : List Dbl) (agg : AggType) (numShards : Nat)
    (shardOf : String → Nat) : Nat × DB :=
  let maps := unionShardMaps db dest inputs weights agg numShards shardOf
  let result := mergeUnionMaps agg maps
  let smvec := result.map fun kv => (kv.2, kv.1)
  (smvec.length, storeOverride db dest smvec)

/-! ## Theorems -/

theorem collectN_eq_take {α : Type} : ∀ (l : List α) (n : Nat), collectN l n = l.take n
  | _, 0 => by simp [collectN]
  | [], _ + 1 => by simp [collectN]
  | e :: rest, n + 1 => by simp [collectN, collectN_eq_take rest n]

theorem filter_range_eq_range' (n s e : Nat) :
    (List.range n).filter (fun i => decide (s ≤ i) && decide (i ≤ e)) =
      List.range' s (min (e + 1) n - s) := by
  induction n with
  | zero => simp
  | succ n ih =>
    rw [List.range_succ, List.filter_append, ih]
    by_cases hs : s ≤ n
    · by_cases he : n ≤ e
      · have h1 : min (e + 1) (n + 1) - s = (min (e + 1) n - s) + 1 := by omega
        have h2 : s + (min (e + 1) n - s) = n := by omega
        rw [h1, List.range'_1_concat, h2]
        simp [hs, he]
      · have h1 : min (e + 1) (n + 1) - s = min (e + 1) n - s := by omega
        simp [he, h1]
    · have h1 : min (e + 1) (n + 1) - s = 0 := by omega
      have h2 : min (e + 1) n - s = 0 := by omega
      simp [hs, h1, h2]

theorem filterMap_get?_range' {α : Type} (l : List α) :
    ∀ (k s : Nat), (List.range' s k).filterMap (fun i => l[i]?) = (l.drop s).take k := by
  intro k
  induction k with
  | zero => simp
  | succ k ih =>
    intro s
    rw [List.range'_succ, List.filterMap_cons]
    cases hget : l[s]? with
    | none =>
      have hlen : l.length ≤ s := List.getElem?_eq_none_iff.1 hget
      have hdrop : l.drop s = [] := List.drop_eq_nil_of_le hlen
      rw [hdrop]
      simp only [List.take_nil]
      apply List.filterMap_eq_nil_iff.2
      intro a ha
      have h1 : s + 1 ≤ a := (List.mem_range'_1.1 ha).1
      have h2 : l[a]? = none := List.getElem?_eq_none (by omega)
      simp [h2]
    | some a =>
      obtain ⟨hlt, hval⟩ := List.getElem?_eq_some_iff.1 hget
      have hdrop : l.drop s = a :: l.drop (s + 1) := by
        rw [List.drop_eq_getElem_cons hlt, hval]
      rw [hdrop, ih (s + 1), List.take_succ_cons]

/-- C1 helper: the code's slice of the iteration sequence equals the filter
of all positions lying between `s` and `e`. -/
theorem take_drop_eq_posFilter {α : Type} (l : List α) (s e : Nat) :
    (l.drop s).take (e + 1 - s) =
      ((List.range l.length).filter (fun i => decide (s ≤ i) && decide (i ≤ e))).filterMap
        (fun i => l[i]?) := by
  rw [filter_range_eq_range', filterMap_get?_range']
  rcases Nat.le_total (e + 1) l.length with h | h
  · rw [Nat.min_eq_left h]
  · rw [Nat.min_eq_right h]
    have h1 : (l.drop s).length = l.length - s := List.length_drop s l
    rw [List.take_of_length_le (by omega), List.take_of_length_le (by omega)]

/-- **C1** (confirmed): for every index interval `(start, end)` and every
sorted set, the range visitor normalizes negative `start`/`end` by adding the
length (`-1` is the last element), clamps `start` to `0` and `end` to
`length - 1`, produces an empty result (without error) whenever after
normalization `start > end` or `start ≥ length`, and otherwise the `Range`
action yields exactly the elements at positions `start..end` inclusive in
iteration order. -/
theorem visitIndexInterval_eq_indexRangeSpec {α : Type} (l : List α)
    (reverse : Bool) (first second : Int) :
    visitIndexInterval l reverse first second =
      indexRangeSpec l reverse first second := by
  have hseqlen : (if reverse then l.reverse else l).length = l.length := by
    cases reverse <;> simp
  simp only [visitIndexInterval, indexRangeSpec, ActionRangeRank, collectN_eq_take]
  generalize hseq : (if reverse then l.reverse else l) = seq at hseqlen ⊢
  rw [← hseqlen]
  generalize hs0 : (if first < 0 then first + ((seq.length : Nat) : Int) else first) =
    start0
  generalize he0 :
    (if second < 0 then second + ((seq.length : Nat) : Int) else second) = end0
  generalize hs1 : (if start0 < 0 then (0 : Int) else start0) = start1
  generalize he1 :
    (if end0 ≥ ((seq.length : Nat) : Int) then ((seq.length : Nat) : Int) - 1
      else end0) = end1
  have hmax : max 0 start0 = start1 := by omega
  rw [hmax]
  by_cases hcode : start1 > end0 ∨ start1 ≥ ((seq.length : Nat) : Int)
  · rw [if_pos hcode, if_pos (by omega)]
  · rw [if_neg hcode, if_neg (by omega)]
    have hmin : min (((seq.length : Nat) : Int) - 1) end0 = end1 := by omega
    rw [hmin]
    have hse : 0 ≤ start1 ∧ start1 ≤ end1 := by omega
    have hlen1 : end1.toNat - start1.toNat + 1 = end1.toNat + 1 - start1.toNat := by
      omega
    rw [hlen1, take_drop_eq_posFilter seq start1.toNat end1.toNat]
    apply congrArg
    apply List.filter_congr
    intro i _
    have h1 : (decide (start1.toNat ≤ i)) = (decide (start1 ≤ (i : Int))) := by
      simp only [decide_eq_decide]
      omega
    have h2 : (decide (i ≤ end1.toNat)) = (decide ((i : Int) ≤ end1)) := by
      simp only [decide_eq_decide]
      omega
    rw [h1, h2]

theorem Dbl.slt_trans {a b c : Dbl} (h1 : Dbl.slt a b = true)
    (h2 : Dbl.slt b c = true) : Dbl.slt a c = true := by
  cases a <;> cases b <;> cases c <;> simp_all [Dbl.slt] <;> linarith

theorem Dbl.sle_trans {a b c : Dbl} (h1 : Dbl.sle a b = true)
    (h2 : Dbl.sle b c = true) : Dbl.sle a c = true := by
  cases a <;> cases b <;> cases c <;> simp_all [Dbl.sle] <;> linarith

theorem Dbl.slt_of_slt_of_sle {a b c : Dbl} (h1 : Dbl.slt a b = true)
    (h2 : Dbl.sle b c = true) : Dbl.slt a c = true := by
  cases a <;> cases b <;> cases c <;> simp_all [Dbl.slt, Dbl.sle] <;> linarith

theorem Dbl.slt_of_sle_of_slt {a b c : Dbl} (h1 : Dbl.sle a b = true)
    (h2 : Dbl.slt b c = true) : Dbl.slt a c = true := by
  cases a <;> cases b <;> cases c <;> simp_all [Dbl.slt, Dbl.sle] <;> linarith

theorem emitLoop_eq_takeWhile_take (range : Zrangespec) (rev : Bool) :
    ∀ (cur : List ZEntry) (n : Nat),
      emitLoop range rev cur n =
        (cur.takeWhile (fun e => IsUnder rev e.2 range)).take n
  | _, 0 => by simp [emitLoop]
  | [], _ + 1 => by simp [emitLoop]
  | e :: rest, n + 1 => by
    by_cases h : IsUnder rev e.2 range
    · simp [emitLoop, h, List.takeWhile_cons_of_pos,
        emitLoop_eq_takeWhile_take range rev rest n]
    · simp [emitLoop, h, List.takeWhile_cons_of_neg]

theorem countP_eq_length_takeWhile {α : Type} (q : α → Bool) :
    ∀ (l : List α), l.Pairwise (fun x y => q y = true → q x = true) →
      l.countP q = (l.takeWhile q).length := by
  intro l
  induction l with
  | nil => simp
  | cons e rest ih =>
    intro hp
    rcases List.pairwise_cons.1 hp with ⟨he, hrest⟩
    by_cases hq : q e
    · rw [List.takeWhile_cons_of_pos hq, List.countP_cons_of_pos _ _ (by simp [hq])]
      simp [ih hrest]
    · rw [List.takeWhile_cons_of_neg (by simp [hq]),
        List.countP_cons_of_neg _ _ (by simp [hq])]
      simp only [List.length_nil]
      exact List.countP_eq_zero.2 fun y hy hqy => hq (he y hy hqy)

theorem dropWhile_all_false {α : Type} (q : α → Bool) :
    ∀ (l : List α), l.Pairwise (fun x y => q y = true → q x = true) →
      ∀ y ∈ l.dropWhile q, q y = false := by
  intro l
  induction l with
  | nil => simp
  | cons e rest ih =>
    intro hp
    rcases List.pairwise_cons.1 hp with ⟨he, hrest⟩
    by_cases hq : q e
    · rw [List.dropWhile_cons_of_pos hq]
      exact ih hrest
    · rw [List.dropWhile_cons_of_neg (by simp [hq])]
      intro y hy
      rcases List.mem_cons.1 hy with rfl | hy2
      · exact Bool.eq_false_iff.2 hq
      · cases hc : q y with
        | false => rfl
        | true => exact absurd (he y hy2 hc) hq

theorem countP_both_eq_block {α : Type} (p q : α → Bool) :
    ∀ (l : List α),
      l.Pairwise (fun x y =>
        (p x = true → p y = true) ∧ (q y = true → q x = true)) →
      l.countP (fun e => p e && q e) =
        ((l.dropWhile (fun e => !p e)).takeWhile q).length := by
  intro l
  induction l with
  | nil => simp
  | cons e rest ih =>
    intro hp
    rcases List.pairwise_cons.1 hp with ⟨he, hrest⟩
    by_cases hpe : p e
    · rw [List.dropWhile_cons_of_neg (by simp [hpe])]
      by_cases hqe : q e
      · rw [List.takeWhile_cons_of_pos hqe,
          List.countP_cons_of_pos _ _ (by simp [hpe, hqe])]
        have hallp : ∀ y ∈ rest, p y = true := fun y hy => (he y hy).1 hpe
        have h1 : rest.countP (fun x => p x && q x) = rest.countP q :=
          List.countP_congr fun y hy => by simp [hallp y hy]
        have h2 : rest.Pairwise (fun x y => q y = true → q x = true) :=
          hrest.imp fun h => h.2
        simp [h1, countP_eq_length_takeWhile q rest h2]
      · rw [List.takeWhile_cons_of_neg (by simp [hqe]),
          List.countP_cons_of_neg _ _ (by simp [hqe])]
        simp only [List.length_nil]
        exact List.countP_eq_zero.2 fun y hy hsat => by
          have hqy : q y = true := by
            have := hsat
            simp only [Bool.and_eq_true] at this
            exact this.2
          exact hqe ((he y hy).2 hqy)
    · rw [List.dropWhile_cons_of_pos (by simp [hpe]),
        List.countP_cons_of_neg _ _ (by simp [hpe])]
      exact ih hrest

theorem takeWhile_drop_eq_nil {α : Type} (q : α → Bool) :
    ∀ (start : List α),
      start.Pairwise (fun x y => q y = true → q x = true) →
      ∀ offset, (start.takeWhile q).length ≤ offset →
        (start.drop offset).takeWhile q = [] := by
  intro start
  induction start with
  | nil => simp
  | cons e rest ih =>
    intro hp offset hoff
    rcases List.pairwise_cons.1 hp with ⟨he, hrest⟩
    by_cases hq : q e
    · rw [List.takeWhile_cons_of_pos hq] at hoff
      cases offset with
      | zero => simp at hoff
      | succ k =>
        rw [List.drop_succ_cons]
        exact ih hrest k (by simpa using hoff)
    · cases hdrop : (e :: rest).drop offset with
      | nil => simp
      | cons a as =>
        have ha : a ∈ e :: rest :=
          List.drop_subset offset (e :: rest) (hdrop ▸ List.mem_cons_self a as)
        have hqa : q a = false := by
          rcases List.mem_cons.1 ha with rfl | ha2
          · exact Bool.eq_false_iff.2 hq
          · cases hc : q a with
            | false => rfl
            | true => exact absurd (he a ha2 hc) hq
        rw [List.takeWhile_cons_of_neg (by simp [hqa])]

theorem gteMin_mono {range : Zrangespec} {a b : Dbl} (hab : Dbl.sle a b = true)
    (h : zslValueGteMin a range = true) : zslValueGteMin b range = true := by
  unfold zslValueGteMin at h ⊢
  cases hm : range.minex <;> simp only [hm, Bool.false_eq_true, if_false, if_true] at h ⊢
  · exact Dbl.sle_trans h hab
  · exact Dbl.slt_of_slt_of_sle h hab

theorem lteMax_anti {range : Zrangespec} {a b : Dbl} (hab : Dbl.sle a b = true)
    (h : zslValueLteMax b range = true) : zslValueLteMax a range = true := by
  unfold zslValueLteMax at h ⊢
  cases hm : range.maxex <;> simp only [hm, Bool.false_eq_true, if_false, if_true] at h ⊢
  · exact Dbl.sle_trans hab h
  · exact Dbl.slt_of_sle_of_slt hab h

/-- The zset order invariant (scores nondecreasing in iteration order)
yields, along either direction of traversal, upward closure of the entry
bound and downward closure of the continuation bound. -/
theorem sorted_entry_closure (rev : Bool) (range : Zrangespec)
    (l : List ZEntry)
    (hsort : l.Pairwise (fun a b => Dbl.sle a.2 b.2 = true)) :
    (if rev then l.reverse else l).Pairwise (fun x y =>
      (entryBound rev range x = true → entryBound rev range y = true) ∧
      (IsUnder rev y.2 range = true → IsUnder rev x.2 range = true)) := by
  cases rev with
  | false =>
    simp only [Bool.false_eq_true, if_false]
    refine hsort.imp fun {a b} hab => ?_
    refine ⟨fun h => ?_, fun h => ?_⟩
    · simpa [entryBound] using gteMin_mono hab (by simpa [entryBound] using h)
    · simpa [IsUnder] using lteMax_anti hab (by simpa [IsUnder] using h)
  | true =>
    simp only [if_true]
    rw [List.pairwise_reverse]
    refine hsort.imp fun {a b} hab => ?_
    refine ⟨fun h => ?_, fun h => ?_⟩
    · simpa [entryBound] using lteMax_anti hab (by simpa [entryBound] using h)
    · simpa [IsUnder] using gteMin_mono hab (by simpa [IsUnder] using h)

/-- **C2** (confirmed): for every score interval with params
`{reverse, offset, limit}`, the `Range` action is identical on the packed
and the indexed encoding; it starts at the first (or last, if reverse)
element satisfying the entry bound, skips `offset` elements
unconditionally, then emits up to `limit` elements while each still
satisfies the other bound, stopping at the first failure; an offset at
least the number of in-range elements yields an empty result with no
error; and `limit = UINT32_MAX` (the parsed "no limit" sentinel) means
unbounded. -/
theorem visitScoreInterval_correct (enc : Encoding) (l : List ZEntry)
    (si : Bound × Bound) (params : RangeParams)
    (hsort : l.Pairwise (fun a b => Dbl.sle a.2 b.2 = true)) :
    (ExtractListPack l (GetZrangeSpec params.reverse si) params =
        ExtractSkipList l (GetZrangeSpec params.reverse si) params) ∧
    visitScoreInterval enc l si params =
      ((((if params.reverse then l.reverse else l).dropWhile
            (fun e => !entryBound params.reverse (GetZrangeSpec params.reverse si) e)).drop
          params.offset).takeWhile
        (fun e => IsUnder params.reverse e.2 (GetZrangeSpec params.reverse si))).take
        params.limit ∧
    (l.countP (fun e =>
        zslValueGteMin e.2 (GetZrangeSpec params.reverse si) &&
        zslValueLteMax e.2 (GetZrangeSpec params.reverse si)) ≤ params.offset →
      visitScoreInterval enc l si params = []) ∧
    (params.limit = 4294967295 → l.length ≤ 4294967295 →
      visitScoreInterval enc l si params =
        (((if params.reverse then l.reverse else l).dropWhile
            (fun e => !entryBound params.reverse (GetZrangeSpec params.reverse si) e)).drop
          params.offset).takeWhile
          (fun e => IsUnder params.reverse e.2 (GetZrangeSpec params.reverse si))) := by
  have hvisit : visitScoreInterval enc l si params =
      emitLoop (GetZrangeSpec params.reverse si) params.reverse
        (((if params.reverse then l.reverse else l).dropWhile
            (fun e => !entryBound params.reverse (GetZrangeSpec params.reverse si) e)).drop
          params.offset) params.limit := by
    cases enc <;> rfl
  have hclosure := sorted_entry_closure params.reverse
    (GetZrangeSpec params.reverse si) l hsort
  have hstartq :
      ((if params.reverse then l.reverse else l).dropWhile
          (fun e => !entryBound params.reverse (GetZrangeSpec params.reverse si) e)).Pairwise
        (fun x y => IsUnder params.reverse y.2 (GetZrangeSpec params.reverse si) = true →
          IsUnder params.reverse x.2 (GetZrangeSpec params.reverse si) = true) :=
    ((hclosure.sublist (List.dropWhile_sublist _)).imp fun h => h.2)
  have hcount : l.countP (fun e =>
        zslValueGteMin e.2 (GetZrangeSpec params.reverse si) &&
        zslValueLteMax e.2 (GetZrangeSpec params.reverse si)) =
      (((if params.reverse then l.reverse else l).dropWhile
          (fun e => !entryBound params.reverse (GetZrangeSpec params.reverse si) e)).takeWhile
        (fun e => IsUnder params.reverse e.2 (GetZrangeSpec params.reverse si))).length := by
    have hblock := countP_both_eq_block
      (fun e => entryBound params.reverse (GetZrangeSpec params.reverse si) e)
      (fun e => IsUnder params.reverse e.2 (GetZrangeSpec params.reverse si))
      (if params.reverse then l.reverse else l) hclosure
    rw [← hblock]
    cases hrev : params.reverse with
    | false =>
      simp only [Bool.false_eq_true, if_false]
      exact List.countP_congr fun e _ => by
        simp [entryBound, IsUnder, hrev]
    | true =>
      simp only [if_true]
      rw [List.countP_reverse]
      exact List.countP_congr fun e _ => by
        simp [entryBound, IsUnder, hrev, Bool.and_comm]
  refine ⟨rfl, ?_, ?_, ?_⟩
  · rw [hvisit, emitLoop_eq_takeWhile_take]
  · intro hoff
    rw [hvisit, emitLoop_eq_takeWhile_take]
    rw [takeWhile_drop_eq_nil _ _ hstartq params.offset (by rw [← hcount]; exact hoff)]
    simp
  · intro hlim hlen
    rw [hvisit, emitLoop_eq_takeWhile_take, hlim]
    apply List.take_of_length_le
    have h1 := (List.takeWhile_sublist
      (fun e => IsUnder params.reverse e.2 (GetZrangeSpec params.reverse si))
      (l := ((if params.reverse then l.reverse else l).dropWhile
          (fun e => !entryBound params.reverse (GetZrangeSpec params.reverse si) e)).drop
        params.offset)).length_le
    have h2 := (List.dropWhile_sublist
      (fun e => !entryBound params.reverse (GetZrangeSpec params.reverse si) e)
      (l := if params.reverse then l.reverse else l)).length_le
    have h3 : (if params.reverse then l.reverse else l).length = l.length := by
      cases params.reverse <;> simp
    have h4 : (((if params.reverse then l.reverse else l).dropWhile
        (fun e => !entryBound params.reverse (GetZrangeSpec params.reverse si) e)).drop
          params.offset).length ≤ l.length := by
      rw [List.length_drop]
      omega
    omega

/-- Witness for C2: on the two-element set `{a ↦ 1, b ↦ 2}` with the closed
score interval `[1, 2]` and `offset = 5` (exceeding the in-range count 2),
the range action produces an empty result. -/
theorem visitScoreInterval_correct_witness :
    visitScoreInterval Encoding.skiplist
      [("a", Dbl.fin 1), ("b", Dbl.fin 2)]
      (⟨Dbl.fin 1, false⟩, ⟨Dbl.fin 2, false⟩)
      ⟨5, 10, false, false⟩ = [] :=
  (visitScoreInterval_correct Encoding.skiplist
    [("a", Dbl.fin 1), ("b", Dbl.fin 2)]
    (⟨Dbl.fin 1, false⟩, ⟨Dbl.fin 2, false⟩)
    ⟨5, 10, false, false⟩ (by decide)).2.2.1 (by decide)

/-- **C8** (code bug): for the reverse-evaluated lex interval
`first = (a, second = [c`, the complete swap demanded by the specification
yields `maxex = true` (the max endpoint is the original open `(a` bound),
but `GetLexRange` computes `maxex` from the unswapped `li.second` (the
closed `[c` bound) and returns `maxex = false`, while every other field
follows the swap. -/
theorem GetLexRange_reverse_maxex_diverges :
    GetLexRange true
        (⟨"a", LexBoundType.OPEN⟩, ⟨"c", LexBoundType.CLOSED⟩) ≠
      GetLexRangeSpec true
        (⟨"a", LexBoundType.OPEN⟩, ⟨"c", LexBoundType.CLOSED⟩) ∧
    (GetLexRange true
        (⟨"a", LexBoundType.OPEN⟩, ⟨"c", LexBoundType.CLOSED⟩)).maxex = false ∧
    (GetLexRangeSpec true
        (⟨"a", LexBoundType.OPEN⟩, ⟨"c", LexBoundType.CLOSED⟩)).maxex = true ∧
    (GetLexRange true
        (⟨"a", LexBoundType.OPEN⟩, ⟨"c", LexBoundType.CLOSED⟩)).max =
      LexEnd.str "a" ∧
    (GetLexRange true
        (⟨"a", LexBoundType.OPEN⟩, ⟨"c", LexBoundType.CLOSED⟩)).min =
      LexEnd.str "c" := by
  refine ⟨?_, rfl, rfl, rfl, rfl⟩
  intro h
  have := congrArg Zlexrangespec.maxex h
  simp [GetLexRange, GetLexRangeSpec] at this

/-- **C7** (code bug): on `ZRANGEBYLEX key - + LIMIT 2 5` the code parses
both `LIMIT` tokens into `count`, leaving the offset at 0 and the limit at
5, whereas a correct implementation (the claim) assigns 2 to the offset and
5 to the limit; malformed integer tokens are rejected either way. -/
theorem zrangeByLexLimit_parses_offset_into_count :
    zrangeByLexLimit ["ZRANGEBYLEX", "key", "-", "+", "LIMIT", "2", "5"] =
        LimitParse.ok 0 5 ∧
    zrangeByLexLimitSpec ["ZRANGEBYLEX", "key", "-", "+", "LIMIT", "2", "5"] =
        LimitParse.ok 2 5 ∧
    zrangeByLexLimit ["ZRANGEBYLEX", "key", "-", "+", "LIMIT", "2", "5"] ≠
      zrangeByLexLimitSpec ["ZRANGEBYLEX", "key", "-", "+", "LIMIT", "2", "5"] ∧
    zrangeByLexLimit ["ZRANGEBYLEX", "key", "-", "+", "LIMIT", "x", "5"] =
        LimitParse.err kInvalidIntErr := by
  refine ⟨by decide, by decide, by decide, by decide⟩

theorem zrangeOptsLoop_error_of_byscore (tokens : List String) :
    ∀ ps ws, "BYSCORE" ∈ tokens.map upperStr →
      ∃ msg, zrangeOptsLoop true tokens ps ws = Except.error msg := by
  induction tokens with
  | nil => intro ps ws h; simp at h
  | cons t rest ih =>
    intro ps ws h
    simp only [List.map_cons, List.mem_cons] at h
    by_cases ht : upperStr t = "WITHSCORES"
    · have h2 : "BYSCORE" ∈ rest.map upperStr := by
        rcases h with h | h
        · rw [← h] at ht
          simp at ht
        · exact h
      simp only [zrangeOptsLoop]
      rw [if_neg (by simp), if_pos ht]
      exact ih ps true h2
    · simp only [zrangeOptsLoop]
      rw [if_neg (by simp), if_neg ht]
      exact ⟨_, rfl⟩

theorem zrangeOptsLoop_error_exact (tokens : List String) :
    ∀ ps ws, "BYSCORE" ∈ tokens.map upperStr →
      (∀ t ∈ tokens, upperStr t = "BYSCORE" ∨ upperStr t = "WITHSCORES") →
      zrangeOptsLoop true tokens ps ws =
        Except.error "unsupported option BYSCORE" := by
  induction tokens with
  | nil => intro _ _ h _; simp at h
  | cons t rest ih =>
    intro ps ws h hall
    by_cases ht : upperStr t = "BYSCORE"
    · simp only [zrangeOptsLoop]
      rw [if_neg (by simp), if_neg (by rw [ht]; simp), ht]
      rfl
    · have h1 : upperStr t = "WITHSCORES" :=
        (hall t (List.mem_cons_self t rest)).resolve_left ht
      have h2 : "BYSCORE" ∈ rest.map upperStr := by
        simp only [List.map_cons, List.mem_cons] at h
        rcases h with h | h
        · exact absurd h.symm ht
        · exact h
      simp only [zrangeOptsLoop]
      rw [if_neg (by simp), if_pos h1]
      exact ih ps true h2 fun x hx => hall x (List.mem_cons_of_mem _ hx)

theorem zrangeOptsLoop_ok_ps_true (rev : Bool) (tokens : List String) :
    ∀ ws r, zrangeOptsLoop rev tokens true ws = Except.ok r → r.1 = true := by
  induction tokens with
  | nil =>
    intro ws r h
    simp only [zrangeOptsLoop] at h
    cases h
    rfl
  | cons t rest ih =>
    intro ws r h
    simp only [zrangeOptsLoop] at h
    split at h
    · exact ih ws r h
    · split at h
      · exact ih true r h
      · cases h

theorem zrangeOptsLoop_ok_parse_score (tokens : List String) :
    ∀ ps ws r, "BYSCORE" ∈ tokens.map upperStr →
      zrangeOptsLoop false tokens ps ws = Except.ok r → r.1 = true := by
  induction tokens with
  | nil => intro ps ws r h _; simp at h
  | cons t rest ih =>
    intro ps ws r h hok
    simp only [zrangeOptsLoop] at hok
    by_cases hb : upperStr t = "BYSCORE"
    · rw [if_pos (by simp [hb])] at hok
      exact zrangeOptsLoop_ok_ps_true false rest ws r hok
    · have h2 : "BYSCORE" ∈ rest.map upperStr := by
        simp only [List.map_cons, List.mem_cons] at h
        rcases h with h | h
        · exact absurd h.symm hb
        · exact h
      rw [if_neg (by simp [hb])] at hok
      by_cases hw : upperStr t = "WITHSCORES"
      · rw [if_pos hw] at hok
        exact ih ps true r h2 hok
      · rw [if_neg hw] at hok
        cases hok

/-- **C10** (confirmed): `ZREVRANGE` never interprets a `BYSCORE` token —
whenever some option token uppercases to `BYSCORE` the option loop with
`reverse = true` replies an error (exactly `"unsupported option BYSCORE"`
when the remaining tokens are well-formed options), never a score-range
query; the identical token list on `ZRANGE` (`reverse = false`) selects the
score-interval path whenever parsing succeeds. -/
theorem zrevrange_rejects_byscore (args : List String)
    (h : "BYSCORE" ∈ (args.drop 4).map upperStr) :
    (∃ msg, ZRevRangeOptions args = Except.error msg) ∧
    ((∀ t ∈ args.drop 4,
        upperStr t = "BYSCORE" ∨ upperStr t = "WITHSCORES") →
      ZRevRangeOptions args = Except.error "unsupported option BYSCORE") ∧
    (∀ r, ZRangeOptions args = Except.ok r → r.1 = true) := by
  refine ⟨?_, ?_, ?_⟩
  · exact zrangeOptsLoop_error_of_byscore (args.drop 4) false false h
  · intro hall
    exact zrangeOptsLoop_error_exact (args.drop 4) false false h hall
  · intro r hok
    exact zrangeOptsLoop_ok_parse_score (args.drop 4) false false r h hok

/-- Witness for C10: `ZREVRANGE key 0 -1 BYSCORE` is rejected with exactly
`"unsupported option BYSCORE"`, while `ZRANGE key 0 -1 BYSCORE` selects the
score path. -/
theorem zrevrange_rejects_byscore_witness :
    ZRevRangeOptions ["ZREVRANGE", "key", "0", "-1", "BYSCORE"] =
      Except.error "unsupported option BYSCORE" :=
  (zrevrange_rejects_byscore ["ZREVRANGE", "key", "0", "-1", "BYSCORE"]
    (by decide)).2.1 (by decide)

/-- **C3** (confirmed): a ZADD with the `INCR` flag on a member stored at
`+inf` with supplied increment `-inf` (and vice versa) produces a NaN
result: the element list is unchanged, the result carries `is_nan`, and the
reply is exactly the error `"resulting score is not a number (NaN)"`. -/
theorem zadd_incr_opposite_inf_nan
    (l : List ZEntry) (m : String) (hl : List.lookup m l = some Dbl.pinf)
    (l2 : List ZEntry) (m2 : String)
    (hl2 : List.lookup m2 l2 = some Dbl.ninf) :
    ((OpAdd l { incr := true } [(Dbl.ninf, m)]).2.2 = l ∧
      (OpAdd l { incr := true } [(Dbl.ninf, m)]).2.1.is_nan = true ∧
      zaddReplyOf { incr := true } (OpAdd l { incr := true } [(Dbl.ninf, m)]).1
          (OpAdd l { incr := true } [(Dbl.ninf, m)]).2.1 =
        Reply.err "resulting score is not a number (NaN)") ∧
    ((OpAdd l2 { incr := true } [(Dbl.pinf, m2)]).2.2 = l2 ∧
      (OpAdd l2 { incr := true } [(Dbl.pinf, m2)]).2.1.is_nan = true ∧
      zaddReplyOf { incr := true }
          (OpAdd l2 { incr := true } [(Dbl.pinf, m2)]).1
          (OpAdd l2 { incr := true } [(Dbl.pinf, m2)]).2.1 =
        Reply.err "resulting score is not a number (NaN)") := by
  have e1 : OpAdd l { incr := true } [(Dbl.ninf, m)] =
      (OpStatus.OK, { new_score := Dbl.fin 0, is_nan := true }, l) := by
    simp [OpAdd, OpAddLoop, zsetAdd, hl, Dbl.isNan, Dbl.add]
  have e2 : OpAdd l2 { incr := true } [(Dbl.pinf, m2)] =
      (OpStatus.OK, { new_score := Dbl.fin 0, is_nan := true }, l2) := by
    simp [OpAdd, OpAddLoop, zsetAdd, hl2, Dbl.isNan, Dbl.add]
  rw [e1, e2]
  refine ⟨⟨rfl, rfl, ?_⟩, ⟨rfl, rfl, ?_⟩⟩ <;> rfl

/-- Witness for C3: on the singleton sets `{a ↦ +inf}` and `{b ↦ -inf}` the
opposite-infinity increment leaves the set unchanged and replies the exact
NaN error. -/
theorem zadd_incr_opposite_inf_nan_witness :
    (OpAdd [("a", Dbl.pinf)] { incr := true } [(Dbl.ninf, "a")]).2.2 =
        [("a", Dbl.pinf)] ∧
    zaddReplyOf { incr := true }
        (OpAdd [("a", Dbl.pinf)] { incr := true } [(Dbl.ninf, "a")]).1
        (OpAdd [("a", Dbl.pinf)] { incr := true } [(Dbl.ninf, "a")]).2.1 =
      Reply.err "resulting score is not a number (NaN)" := by
  have h := zadd_incr_opposite_inf_nan [("a", Dbl.pinf)] "a" (by decide)
    [("b", Dbl.ninf)] "b" (by decide)
  exact ⟨h.1.1, h.1.2.2⟩

theorem zaddParseFlagsList_append (flags pairs : List String) :
    ∀ zp, (∀ t ∈ flags, isZaddFlagTok t = true) → pairs ≠ [] →
      isZaddFlagTok (pairs.headD "") = false →
      zaddParseFlagsList zp (flags ++ pairs) =
        (zaddApplyFlags zp flags, pairs) := by
  induction flags with
  | nil =>
    intro zp _ hne hhead
    cases pairs with
    | nil => exact absurd rfl hne
    | cons t rest =>
      cases rest with
      | nil => rfl
      | cons u rest2 =>
        simp only [List.headD_cons] at hhead
        simp only [List.nil_append, zaddParseFlagsList, hhead, Bool.false_eq_true,
          if_false, zaddApplyFlags, List.foldl_nil]
  | cons f fs ih =>
    intro zp hfl hne hhead
    have hf : isZaddFlagTok f = true := hfl f (List.mem_cons_self f fs)
    have hne2 : fs ++ pairs ≠ [] := by
      intro hc
      exact hne (List.append_eq_nil.1 hc).2
    cases hfp : fs ++ pairs with
    | nil => exact absurd hfp hne2
    | cons v vr =>
      have hstep : zaddParseFlagsList zp ((f :: fs) ++ pairs) =
          zaddParseFlagsList (zaddApplyFlag zp f) (fs ++ pairs) := by
        rw [List.cons_append, hfp]
        simp only [zaddParseFlagsList, hf, if_true]
      rw [hstep, ih (zaddApplyFlag zp f) (fun t ht => hfl t (List.mem_cons_of_mem _ ht))
        hne hhead]
      rfl

/-- **C4** (confirmed): ZADD rejects every incompatible flag combination
before touching the set.  For an argument list `ZADD key <flags> <pairs>`
(all flag tokens recognized, the first pair token not a flag keyword), in
the order the code checks them: an odd trailing-token count is a syntax
error; `INCR` with more than one pair replies exactly
`"INCR option supports a single increment-element pair"`; `NX` with `XX`
replies exactly `"XX and NX options at the same time are not compatible"`;
and `NX` with `GT`/`LT`, or `GT` with `LT`, replies exactly
`"GT, LT, and/or NX options at the same time are not compatible"`. -/
theorem zadd_incompatible_flags (key : String) (flags pairs : List String)
    (hfl : ∀ t ∈ flags, isZaddFlagTok t = true)
    (hp : pairs ≠ [])
    (hhead : isZaddFlagTok (pairs.headD "") = false) :
    (pairs.length % 2 ≠ 0 →
      zaddEarlyError (["ZADD", key] ++ flags ++ pairs) = some kSyntaxErr) ∧
    (pairs.length % 2 = 0 → (zaddApplyFlags {} flags).incr = true →
      pairs.length > 2 →
      zaddEarlyError (["ZADD", key] ++ flags ++ pairs) = some kIncrPairErr) ∧
    (pairs.length % 2 = 0 →
      ¬((zaddApplyFlags {} flags).incr = true ∧ pairs.length > 2) →
      (zaddApplyFlags {} flags).nx = true → (zaddApplyFlags {} flags).xx = true →
      zaddEarlyError (["ZADD", key] ++ flags ++ pairs) = some kNxXxErr) ∧
    (pairs.length % 2 = 0 →
      ¬((zaddApplyFlags {} flags).incr = true ∧ pairs.length > 2) →
      ¬((zaddApplyFlags {} flags).nx = true ∧ (zaddApplyFlags {} flags).xx = true) →
      (((zaddApplyFlags {} flags).nx = true ∧
          ((zaddApplyFlags {} flags).gt = true ∨
            (zaddApplyFlags {} flags).lt = true)) ∨
        ((zaddApplyFlags {} flags).gt = true ∧
          (zaddApplyFlags {} flags).lt = true)) →
      zaddEarlyError (["ZADD", key] ++ flags ++ pairs) = some kGtLtNxErr) := by
  have hdrop : ((["ZADD", key] ++ flags ++ pairs).drop 2) = flags ++ pairs := by
    simp
  have hparse := zaddParseFlagsList_append flags pairs {} hfl hp hhead
  have hbody : zaddEarlyError (["ZADD", key] ++ flags ++ pairs) =
      (if pairs.length % 2 ≠ 0 then some kSyntaxErr
       else if (zaddApplyFlags {} flags).incr ∧ pairs.length > 2 then
         some kIncrPairErr
       else if (zaddApplyFlags {} flags).nx ∧ (zaddApplyFlags {} flags).xx then
         some kNxXxErr
       else if ((zaddApplyFlags {} flags).nx ∧
            ((zaddApplyFlags {} flags).gt ∨ (zaddApplyFlags {} flags).lt)) ∨
            ((zaddApplyFlags {} flags).gt ∧ (zaddApplyFlags {} flags).lt) then
         some kGtLtNxErr
       else none) := by
    unfold zaddEarlyError
    rw [hdrop, hparse]
  refine ⟨?_, ?_, ?_, ?_⟩
  · intro h1
    rw [hbody, if_pos h1]
  · intro h1 h2 h3
    rw [hbody, if_neg (by omega), if_pos ⟨h2, h3⟩]
  · intro h1 h2 h3 h4
    rw [hbody, if_neg (by omega), if_neg h2, if_pos ⟨h3, h4⟩]
  · intro h1 h2 h3 h4
    rw [hbody, if_neg (by omega), if_neg h2, if_neg h3, if_pos h4]

/-- Witness for C4: `ZADD k NX XX 1 a` is rejected with exactly the NX/XX
incompatibility error, and `ZADD k INCR 1 a 2 b` with the single-pair
error. -/
theorem zadd_incompatible_flags_witness :
    zaddEarlyError ["ZADD", "k", "NX", "XX", "1", "a"] =
        some "XX and NX options at the same time are not compatible" ∧
    zaddEarlyError ["ZADD", "k", "INCR", "1", "a", "2", "b"] =
        some "INCR option supports a single increment-element pair" := by
  constructor
  · exact (zadd_incompatible_flags "k" ["NX", "XX"] ["1", "a"] (by decide)
      (by decide) (by decide)).2.2.1 (by decide) (by decide) (by decide)
      (by decide)
  · exact (zadd_incompatible_flags "k" ["INCR"] ["1", "a", "2", "b"] (by decide)
      (by decide) (by decide)).2.1 (by decide) (by decide) (by decide)

theorem dbFind_dbDel (db : DB) (k : String) : dbFind (dbDel db k) k = none := by
  induction db with
  | nil => rfl
  | cons e rest ih =>
    by_cases he : e.1 = k
    · simp only [dbDel, List.filter_cons, he]
      simpa [dbDel] using ih
    · have hbe : (k == e.1) = false := by
        simp only [beq_eq_false_iff_ne, ne_eq]
        exact fun hc => he hc.symm
      simp only [dbDel, List.filter_cons]
      rw [if_pos (by simp [he])]
      simp only [dbFind, List.lookup, hbe]
      simpa [dbDel, dbFind] using ih

theorem dbFind_dbSet (db : DB) (k : String) (v : List ZEntry) :
    (dbFind db k).isSome = true → dbFind (dbSet db k v) k = some v := by
  induction db with
  | nil => intro h; simp [dbFind] at h
  | cons e rest ih =>
    intro h
    by_cases he : e.1 = k
    · simp only [dbSet, List.map_cons, if_pos he]
      simp [dbFind, List.lookup]
    · have hbe : (k == e.1) = false := by
        simp only [beq_eq_false_iff_ne, ne_eq]
        exact fun hc => he hc.symm
      simp only [dbSet, List.map_cons, if_neg he]
      simp only [dbFind, List.lookup, hbe] at h ⊢
      exact ih h

/-- **C9** (confirmed): after any removal (`ZREM`'s `OpRem`, or
`OpRemRange` with a rank, score, or lex interval) that leaves the sorted
set at length zero, the key is deleted from the key space — a subsequent
lookup finds nothing; a removal that leaves a nonzero length keeps the key
present, holding exactly the post-removal set. -/
theorem removal_deletes_empty_key (db : DB) (key : String)
    (zobj : List ZEntry) (h : dbFind db key = some zobj)
    (members : List String) (params : RangeParams) (iv : Zinterval) :
    (∀ cnt db2, OpRem db key members = some (cnt, db2) →
      ((zsetAfterRem zobj members).2.length = 0 → dbFind db2 key = none) ∧
      ((zsetAfterRem zobj members).2.length ≠ 0 →
        dbFind db2 key = some (zsetAfterRem zobj members).2)) ∧
    (∀ cnt db2, OpRemRange db key params iv = some (cnt, db2) →
      ((visitRemove zobj params iv).2.length = 0 → dbFind db2 key = none) ∧
      ((visitRemove zobj params iv).2.length ≠ 0 →
        dbFind db2 key = some (visitRemove zobj params iv).2)) := by
  constructor
  · intro cnt db2 heq
    simp only [OpRem, h] at heq
    by_cases hlen : (zsetAfterRem zobj members).2.length = 0
    · rw [if_pos hlen] at heq
      refine ⟨fun _ => ?_, fun hne => absurd hlen hne⟩
      cases heq
      exact dbFind_dbDel _ _
    · rw [if_neg hlen] at heq
      refine ⟨fun hz => absurd hz hlen, fun _ => ?_⟩
      cases heq
      exact dbFind_dbSet db key _ (by rw [h]; rfl)
  · intro cnt db2 heq
    simp only [OpRemRange, h] at heq
    by_cases hlen : (visitRemove zobj params iv).2.length = 0
    · rw [if_pos hlen] at heq
      refine ⟨fun _ => ?_, fun hne => absurd hlen hne⟩
      cases heq
      exact dbFind_dbDel _ _
    · rw [if_neg hlen] at heq
      refine ⟨fun hz => absurd hz hlen, fun _ => ?_⟩
      cases heq
      exact dbFind_dbSet db key _ (by rw [h]; rfl)

/-- Witness for C9: deleting the only member of `{k ↦ {a ↦ 1}}` removes the
key `k` from the key space. -/
theorem removal_deletes_empty_key_witness :
    OpRem [("k", [("a", Dbl.fin 1)])] "k" ["a"] = some (1, []) ∧
    dbFind ([] : DB) "k" = none :=
  ⟨by decide,
    ((removal_deletes_empty_key [("k", [("a", Dbl.fin 1)])] "k"
        [("a", Dbl.fin 1)] (by decide) ["a"] {} (Zinterval.index 0 (-1))).1
      1 [] (by decide)).1 (by decide)⟩

theorem lookup_zslInsertSorted_ne (e : ZEntry) (m : String) (hm : m ≠ e.1) :
    ∀ l : List ZEntry,
      List.lookup m (zslInsertSorted l e) = List.lookup m l := by
  intro l
  induction l with
  | nil =>
    have hbe : (m == e.1) = false := by simpa using hm
    simp [zslInsertSorted, List.lookup, hbe]
  | cons x rest ih =>
    by_cases hle : entryLt e x
    · have hbe : (m == e.1) = false := by simpa using hm
      simp [zslInsertSorted, hle, List.lookup, hbe]
    · simp only [zslInsertSorted, hle, Bool.false_eq_true, if_false]
      cases hbx : (m == x.1) <;> simp [List.lookup, hbx, ih]

theorem lookup_zsetDelMember_ne (k m : String) (hm : m ≠ k) :
    ∀ l : List ZEntry,
      List.lookup m (zsetDelMember l k) = List.lookup m l := by
  intro l
  induction l with
  | nil => rfl
  | cons x rest ih =>
    by_cases hx : x.1 = k
    · have hbm : (m == x.1) = false := by simp [hx]; exact fun hc => hm hc
      simp only [zsetDelMember, List.filter_cons]
      rw [if_neg (by simp [hx])]
      simp [List.lookup, hbm]
      simpa [zsetDelMember] using ih
    · simp only [zsetDelMember, List.filter_cons]
      rw [if_pos (by simp [hx])]
      cases hbx : (m == x.1) <;> simp [List.lookup, hbx] <;>
        simpa [zsetDelMember] using ih

theorem zsetAdd_nan_unchanged (l : List ZEntry) (score : Dbl) (ele : String)
    (zp : ZParams) (h : score.isNan = true) :
    (zsetAdd l score ele zp).list = l := by
  simp [zsetAdd, h]

theorem lookup_zsetAdd_ne (l : List ZEntry) (score : Dbl) (ele : String)
    (zp : ZParams) (m : String) (hm : m ≠ ele) :
    List.lookup m (zsetAdd l score ele zp).list = List.lookup m l := by
  unfold zsetAdd
  split
  · rfl
  · cases hlk : List.lookup ele l with
    | some cur =>
      simp only [hlk]
      split_ifs <;>
        simp_all [lookup_zslInsertSorted_ne (ele, _) m hm,
          lookup_zsetDelMember_ne ele m hm]
    | none =>
      simp only [hlk]
      split_ifs <;> simp_all [lookup_zslInsertSorted_ne (ele, score) m hm]

theorem lookup_buildZset_fold_none (m : String) :
    ∀ (smvec : List (Dbl × String)) (acc : List ZEntry),
      List.lookup m acc = none →
      (∀ sv ∈ smvec, sv.2 = m → sv.1.isNan = true) →
      List.lookup m
        (smvec.foldl (fun acc sv => (zsetAdd acc sv.1 sv.2 {}).list) acc) =
        none := by
  intro smvec
  induction smvec with
  | nil => intro acc h _; exact h
  | cons sv rest ih =>
    intro acc h hnan
    simp only [List.foldl_cons]
    apply ih
    · by_cases hmv : sv.2 = m
      · rw [zsetAdd_nan_unchanged _ _ _ _
          (hnan sv (List.mem_cons_self sv rest) hmv)]
        exact h
      · rw [lookup_zsetAdd_ne _ _ _ _ m fun hc => hmv hc.symm]
        exact h
    · exact fun x hx hxm => hnan x (List.mem_cons_of_mem _ hx) hxm

theorem lookup_append_single (db : DB) (k : String) (v : List ZEntry)
    (h : List.lookup k db = none) :
    List.lookup k (db ++ [(k, v)]) = some v := by
  induction db with
  | nil => simp [List.lookup]
  | cons e rest ih =>
    cases hbe : (k == e.1) with
    | true => simp [List.lookup, hbe] at h
    | false =>
      simp only [List.lookup, hbe] at h
      simp only [List.cons_append, List.lookup, hbe]
      exact ih h

theorem dbFind_dbUpsert (db : DB) (k : String) (v : List ZEntry) :
    dbFind (dbUpsert db k v) k = some v := by
  unfold dbUpsert
  split
  · exact dbFind_dbSet db k v (by assumption)
  · rename_i hns
    have h : List.lookup k db = none := by
      cases hf : dbFind db k with
      | none => exact hf
      | some z => rw [hf] at hns; simp at hns
    exact lookup_append_single db k v h

/-- NaN-scored pairs in the member vector never reach the stored
destination set: `zsetAdd` refuses a NaN score, so the write-back loop
leaves such members out. -/
theorem store_skips_nan (db : DB) (dest : String)
    (smvec : List (Dbl × String)) (m : String)
    (hm : ∀ sv ∈ smvec, sv.2 = m → sv.1.isNan = true) :
    ∀ z, dbFind (storeOverride db dest smvec) dest = some z →
      List.lookup m z = none := by
  intro z hz
  unfold storeOverride at hz
  split at hz
  · rw [dbFind_dbDel] at hz
    cases hz
  · rw [dbFind_dbUpsert] at hz
    cases hz
    exact lookup_buildZset_fold_none m smvec [] rfl hm

/-- Counterexample to **C6** as stated: with weight `0` applied to the
score `+inf`, `FromObject` stores the NaN-scored pair `("a", NaN)` into
the materialized per-shard map — the pair *does* appear there. -/
theorem fromObject_keeps_nan_pair :
    FromObject [("a", Dbl.pinf)] (Dbl.fin 0) = [("a", Dbl.nan)] ∧
    (Dbl.mul Dbl.pinf (Dbl.fin 0)).isNan = true ∧
    ("a", Dbl.nan) ∈ FromObject [("a", Dbl.pinf)] (Dbl.fin 0) := by
  refine ⟨by decide, by decide, by decide⟩

/-- **C6** (corrected): a NaN weighted score survives into the per-shard
and merged maps, but is skipped at write-back — `zsetAdd` refuses NaN, so
the pair never appears in the final destination set of either
`ZUNIONSTORE` or `ZINTERSTORE` — and the command still completes, replying
the merged-map size. -/
theorem nan_skipped_at_writeback (db : DB) (dest : String)
    (inputs : List String) (weights : List Dbl) (agg : AggType)
    (numShards : Nat) (shardOf : String → Nat) (m : String) :
    ((∀ p ∈ mergeUnionMaps agg
          (unionShardMaps db dest inputs weights agg numShards shardOf),
        p.1 = m → p.2.isNan = true) →
      ∀ z, dbFind
          (ZUnionStore db dest inputs weights agg numShards shardOf).2 dest =
            some z →
        List.lookup m z = none) ∧
    ((∀ p ∈ mergeInterMaps agg
          (interShardMaps db dest inputs weights agg numShards shardOf) [],
        p.1 = m → p.2.isNan = true) →
      ∀ z, dbFind
          (ZInterStore db dest inputs weights agg numShards shardOf).2 dest =
            some z →
        List.lookup m z = none) ∧
    (ZUnionStore db dest inputs weights agg numShards shardOf).1 =
      (mergeUnionMaps agg
        (unionShardMaps db dest inputs weights agg numShards shardOf)).length ∧
    (ZInterStore db dest inputs weights agg numShards shardOf).1 =
      (mergeInterMaps agg
        (interShardMaps db dest inputs weights agg numShards shardOf)
        []).length := by
  refine ⟨?_, ?_, by simp [ZUnionStore], by simp [ZInterStore]⟩
  · intro hnan z hz
    refine store_skips_nan db dest _ m ?_ z hz
    intro sv hsv hsvm
    rcases List.mem_map.1 hsv with ⟨p, hp, rfl⟩
    exact hnan p hp hsvm
  · intro hnan z hz
    refine store_skips_nan db dest _ m ?_ z hz
    intro sv hsv hsvm
    rcases List.mem_map.1 hsv with ⟨p, hp, rfl⟩
    exact hnan p hp hsvm

/-- Witness for C6: `ZUNIONSTORE d 1 k1 WEIGHTS 0` over `k1 = {a ↦ +inf}`
completes with reply 1 and writes an empty destination set — the NaN pair
for `a` is absent from it. -/
theorem nan_skipped_at_writeback_witness :
    List.lookup "a" ([] : List ZEntry) = none ∧
    dbFind (ZUnionStore [("k1", [("a", Dbl.pinf)])] "d" ["k1"] [Dbl.fin 0]
        AggType.SUM 1 (fun _ => 0)).2 "d" = some [] :=
  ⟨(nan_skipped_at_writeback [("k1", [("a", Dbl.pinf)])] "d" ["k1"]
      [Dbl.fin 0] AggType.SUM 1 (fun _ => 0) "a").1 (by decide) [] (by decide),
    by decide⟩

theorem InterScoredMap_nil_right (dest : ScoredMap) (agg : AggType) :
    InterScoredMap dest [] agg = [] := by
  simp [InterScoredMap]

theorem interFold_of_mem_none (agg : AggType) :
    ∀ (entries : List (Option (List ZEntry × Dbl))) (acc : ScoredMap),
      none ∈ entries → interFold agg entries acc = [] := by
  intro entries
  induction entries with
  | nil => intro acc h; simp at h
  | cons e rest ih =>
    intro acc h
    cases e with
    | none => rfl
    | some zw =>
      have h2 : none ∈ rest := by
        rcases List.mem_cons.1 h with h | h
        · exact absurd h (by simp)
        · exact h
      simp only [interFold]
      split
      · split
        · rfl
        · exact ih _ h2
      · split
        · rfl
        · exact ih _ h2

theorem mergeInterMaps_of_mem_empty (agg : AggType) :
    ∀ (maps : List (Option ScoredMap)) (acc : ScoredMap),
      some [] ∈ maps → mergeInterMaps agg maps acc = [] := by
  intro maps
  induction maps with
  | nil => intro acc h; simp at h
  | cons om rest ih =>
    intro acc h
    cases om with
    | none =>
      have h2 : some [] ∈ rest := by
        rcases List.mem_cons.1 h with h | h
        · exact absurd h (by simp)
        · exact h
      simp only [mergeInterMaps]
      exact ih acc h2
    | some m =>
      by_cases hm : m = []
      · subst hm
        simp only [mergeInterMaps]
        by_cases hacc : acc.isEmpty
        · simp [hacc]
        · simp [hacc, InterScoredMap_nil_right]
      · have h2 : some [] ∈ rest := by
          rcases List.mem_cons.1 h with h | h
          · exact absurd (Option.some.inj h).symm hm
          · exact h
        simp only [mergeInterMaps]
        split
        · split
          · rfl
          · exact ih _ h2
        · split
          · rfl
          · exact ih _ h2

theorem mem_enumFrom_of_mem {α : Type} (a : α) :
    ∀ (l : List α) (off : Nat), a ∈ l →
      ∃ n, off ≤ n ∧ (n, a) ∈ l.enumFrom off := by
  intro l
  induction l with
  | nil => intro off h; simp at h
  | cons x rest ih =>
    intro off h
    rcases List.mem_cons.1 h with rfl | h2
    · exact ⟨off, Nat.le_refl off, by simp⟩
    · obtain ⟨n, hn, hmem⟩ := ih (off + 1) h2
      exact ⟨n, by omega, by simp [hmem]⟩

theorem mem_shardKeysOf (dest : String) (inputs : List String)
    (shardOf : String → Nat) (k : String) (hk : k ∈ inputs) :
    ∃ n, 1 ≤ n ∧ (k, n) ∈ shardKeysOf dest inputs shardOf (shardOf k) := by
  obtain ⟨n, hn, hmem⟩ := mem_enumFrom_of_mem k inputs 1 hk
  refine ⟨n, hn, ?_⟩
  unfold shardKeysOf
  apply List.mem_filter.2
  refine ⟨?_, by simp⟩
  apply List.mem_map.2
  refine ⟨(n, k), ?_, rfl⟩
  show (n, k) ∈ (dest :: inputs).enum
  have henum : (dest :: inputs).enum = (0, dest) :: inputs.enumFrom 1 := rfl
  rw [henum]
  exact List.mem_cons_of_mem _ hmem

theorem shardKeysOf_head_dest (dest : String) (inputs : List String)
    (shardOf : String → Nat) (sid : Nat) :
    ∀ h0, (shardKeysOf dest inputs shardOf sid).head? = some h0 →
      h0.1 = dest → h0.2 = 0 := by
  intro h0 hhead hname
  unfold shardKeysOf at hhead
  have henum : (dest :: inputs).enum = (0, dest) :: inputs.enumFrom 1 := rfl
  rw [henum] at hhead
  simp only [List.map_cons] at hhead
  by_cases hp : shardOf dest = sid
  · rw [List.filter_cons_of_pos (by simpa using hp)] at hhead
    simp only [List.head?_cons] at hhead
    cases hhead
    rfl
  · rw [List.filter_cons_of_neg (by simpa using hp)] at hhead
    have hmem := List.mem_of_mem_head? hhead
    have hpred := (List.mem_filter.1 hmem).2
    rw [hname] at hpred
    simp at hpred
    exact absurd hpred hp

theorem opInterShard_absent (db : DB) (dest : String) (agg : AggType)
    (weights : List Dbl) (keys : List (String × Nat)) (k : String) (n : Nat)
    (hmem : (k, n) ∈ keys) (hn : 1 ≤ n) (habs : dbFind db k = none)
    (hhead : ∀ h0, keys.head? = some h0 → h0.1 = dest → h0.2 = 0) :
    OpInterShard db dest agg weights keys = some [] := by
  cases keys with
  | nil => simp at hmem
  | cons k0 krest =>
    have hrest : (k, n) ∈ (if k0.1 = dest then krest else k0 :: krest) := by
      by_cases h0 : k0.1 = dest
      · rw [if_pos h0]
        rcases List.mem_cons.1 hmem with heq | h
        · have h00 : k0.2 = 0 := hhead k0 rfl h0
          rw [← heq] at h00
          omega
        · exact h
      · rw [if_neg h0]
        exact hmem
    have hne : ((if k0.1 = dest then krest else k0 :: krest) : List (String × Nat)) ≠ [] :=
      List.ne_nil_of_mem hrest
    have hnone : none ∈ (if k0.1 = dest then krest else k0 :: krest).map fun ka =>
        (dbFind db ka.1).map fun z =>
          (z, weights.getD (ka.2 - 1) (Dbl.fin 1)) :=
      List.mem_map.2 ⟨(k, n), hrest, by rw [habs]; rfl⟩
    simp only [OpInterShard]
    rw [if_neg (by simpa [List.isEmpty_iff] using hne)]
    rw [interFold_of_mem_none agg _ [] hnone]

theorem length_zslInsertSorted (e : ZEntry) :
    ∀ l : List ZEntry, (zslInsertSorted l e).length = l.length + 1 := by
  intro l
  induction l with
  | nil => rfl
  | cons x rest ih =>
    by_cases hle : entryLt e x
    · simp [zslInsertSorted, hle]
    · simp [zslInsertSorted, hle, ih]

theorem zsetAdd_fresh (l : List ZEntry) (score : Dbl) (ele : String)
    (h : List.lookup ele l = none) (hn : score.isNan = false) :
    (zsetAdd l score ele {}).list = zslInsertSorted l (ele, score) := by
  simp [zsetAdd, h, hn]

theorem buildZset_fold_length :
    ∀ (smvec : List (Dbl × String)) (acc : List ZEntry),
      (∀ sv ∈ smvec, sv.1.isNan = false) →
      (∀ sv ∈ smvec, List.lookup sv.2 acc = none) →
      (smvec.map Prod.snd).Nodup →
      (smvec.foldl (fun acc sv => (zsetAdd acc sv.1 sv.2 {}).list) acc).length =
        acc.length + smvec.length := by
  intro smvec
  induction smvec with
  | nil => intro acc _ _ _; simp
  | cons sv rest ih =>
    intro acc hnan hfresh hnodup
    simp only [List.foldl_cons]
    rw [zsetAdd_fresh acc sv.1 sv.2 (hfresh sv (List.mem_cons_self sv rest))
      (hnan sv (List.mem_cons_self sv rest))]
    have hnotin : sv.2 ∉ rest.map Prod.snd :=
      (List.nodup_cons.1 (by simpa using hnodup)).1
    have hnodup2 : (rest.map Prod.snd).Nodup :=
      (List.nodup_cons.1 (by simpa using hnodup)).2
    rw [ih (zslInsertSorted acc (sv.2, sv.1))
      (fun x hx => hnan x (List.mem_cons_of_mem _ hx))
      (fun x hx => by
        have hne : x.2 ≠ sv.2 := by
          intro hc
          exact hnotin (List.mem_map.2 ⟨x, hx, hc⟩)
        rw [lookup_zslInsertSorted_ne (sv.2, sv.1) x.2 hne acc]
        exact hfresh x (List.mem_cons_of_mem _ hx))
      hnodup2]
    rw [length_zslInsertSorted]
    simp only [List.length_cons]
    omega

theorem buildZset_length (smvec : List (Dbl × String))
    (h1 : ∀ sv ∈ smvec, sv.1.isNan = false)
    (h2 : (smvec.map Prod.snd).Nodup) :
    (buildZset smvec).length = smvec.length := by
  unfold buildZset
  rw [buildZset_fold_length smvec [] h1 (fun sv _ => rfl) h2]
  simp

/-- Counterexample to **C5** as stated: `ZINTERSTORE d 1 k1 WEIGHTS 0` over
`k1 = {a ↦ +inf}` merges `{a ↦ NaN}`, replies 1, but writes an *empty*
destination set (the NaN pair is refused at write-back), so the reply does
not equal the number of members written. -/
theorem zinterstore_reply_ne_written :
    (ZInterStore [("k1", [("a", Dbl.pinf)])] "d" ["k1"] [Dbl.fin 0]
        AggType.SUM 1 (fun _ => 0)).1 = 1 ∧
    dbFind (ZInterStore [("k1", [("a", Dbl.pinf)])] "d" ["k1"] [Dbl.fin 0]
        AggType.SUM 1 (fun _ => 0)).2 "d" = some [] := by
  refine ⟨by decide, by decide⟩

/-- **C5** (corrected): if any listed input key is absent, the per-shard
partial of the shard owning it is the empty map, the global merge
short-circuits to an empty result, the destination key is removed (prior
contents discarded) and the reply is 0.  In general the reply equals the
*size of the merged map*; when every merged score is non-NaN (map keys
being distinct), the destination holds exactly that many members, so the
reply then equals the number written. -/
theorem zinterstore_absent_key_and_reply (db : DB) (dest : String)
    (inputs : List String) (weights : List Dbl) (agg : AggType)
    (numShards : Nat) (shardOf : String → Nat) :
    (∀ k, k ∈ inputs → dbFind db k = none → shardOf k < numShards →
      OpInterShard db dest agg weights
          (shardKeysOf dest inputs shardOf (shardOf k)) = some [] ∧
      (ZInterStore db dest inputs weights agg numShards shardOf).1 = 0 ∧
      dbFind (ZInterStore db dest inputs weights agg numShards shardOf).2
          dest = none) ∧
    (ZInterStore db dest inputs weights agg numShards shardOf).1 =
      (mergeInterMaps agg
        (interShardMaps db dest inputs weights agg numShards shardOf)
        []).length ∧
    ((∀ p ∈ mergeInterMaps agg
          (interShardMaps db dest inputs weights agg numShards shardOf) [],
        p.2.isNan = false) →
      ((mergeInterMaps agg
          (interShardMaps db dest inputs weights agg numShards shardOf)
          []).map Prod.fst).Nodup →
      mergeInterMaps agg
          (interShardMaps db dest inputs weights agg numShards shardOf) [] ≠
        [] →
      dbFind (ZInterStore db dest inputs weights agg numShards shardOf).2
          dest =
        some (buildZset
          ((mergeInterMaps agg
              (interShardMaps db dest inputs weights agg numShards shardOf)
              []).map fun kv => (kv.2, kv.1))) ∧
      (buildZset
          ((mergeInterMaps agg
              (interShardMaps db dest inputs weights agg numShards shardOf)
              []).map fun kv => (kv.2, kv.1))).length =
        (ZInterStore db dest inputs weights agg numShards shardOf).1) := by
  refine ⟨?_, by simp [ZInterStore], ?_⟩
  · intro k hk habs hsh
    obtain ⟨n, hn, hmem⟩ := mem_shardKeysOf dest inputs shardOf k hk
    have hsome : OpInterShard db dest agg weights
        (shardKeysOf dest inputs shardOf (shardOf k)) = some [] :=
      opInterShard_absent db dest agg weights _ k n hmem hn habs
        (shardKeysOf_head_dest dest inputs shardOf (shardOf k))
    have hmm : some [] ∈
        interShardMaps db dest inputs weights agg numShards shardOf := by
      unfold interShardMaps
      exact List.mem_map.2 ⟨shardOf k, List.mem_range.2 hsh, hsome⟩
    have hmerge : mergeInterMaps agg
        (interShardMaps db dest inputs weights agg numShards shardOf) [] =
        [] := mergeInterMaps_of_mem_empty agg _ [] hmm
    refine ⟨hsome, ?_, ?_⟩
    · simp [ZInterStore, hmerge]
    · simp [ZInterStore, hmerge, storeOverride, dbFind_dbDel]
  · intro hnan hnodup hne
    have hsm : ((mergeInterMaps agg
        (interShardMaps db dest inputs weights agg numShards shardOf)
        []).map fun kv => (kv.2, kv.1)) ≠ [] := by
      simpa using hne
    constructor
    · simp only [ZInterStore, storeOverride]
      rw [if_neg (by simpa [List.isEmpty_iff] using hsm)]
      exact dbFind_dbUpsert db dest _
    · have h1 : ∀ sv ∈ ((mergeInterMaps agg
          (interShardMaps db dest inputs weights agg numShards shardOf)
          []).map fun kv => (kv.2, kv.1)), sv.1.isNan = false := by
        intro sv hsv
        rcases List.mem_map.1 hsv with ⟨p, hp, rfl⟩
        exact hnan p hp
      have h2 : (((mergeInterMaps agg
          (interShardMaps db dest inputs weights agg numShards shardOf)
          []).map fun kv => (kv.2, kv.1)).map Prod.snd).Nodup := by
        rw [List.map_map]
        simpa [Function.comp] using hnodup
      rw [buildZset_length _ h1 h2]
      simp [ZInterStore]

/-- Witness for C5: with `k2` absent, `ZINTERSTORE d 2 k1 k2` over
`k1 = {a ↦ 1}` replies 0 and removes the destination key. -/
theorem zinterstore_absent_key_witness :
    (ZInterStore [("k1", [("a", Dbl.fin 1)])] "d" ["k1", "k2"]
        [Dbl.fin 1, Dbl.fin 1] AggType.SUM 1 (fun _ => 0)).1 = 0 ∧
    dbFind (ZInterStore [("k1", [("a", Dbl.fin 1)])] "d" ["k1", "k2"]
        [Dbl.fin 1, Dbl.fin 1] AggType.SUM 1 (fun _ => 0)).2 "d" = none := by
  have h := (zinterstore_absent_key_and_reply [("k1", [("a", Dbl.fin 1)])]
    "d" ["k1", "k2"] [Dbl.fin 1, Dbl.fin 1] AggType.SUM 1 (fun _ => 0)).1
    "k2" (by decide) (by decide) (by decide)
  exact ⟨h.2.1, h.2.2⟩

end ZsetVerify
